import Mathlib

/-!
Verification development for the antmoc-data cross-section pipeline.

This file gives a shallow embedding, in Lean 4, of the Python modules
  - antmoc_mgxs/material.py          (class Material)
  - antmoc_mgxs/materialxml.py       (class MaterialXML)
  - antmoc_mgxs/type_a/nuclides.py   (classes Nuclide, NuclideSet)
  - antmoc_mgxs/type_a/material.py   (class MaterialTypeA)
  - antmoc_mgxs/type_a/infilecross.py
  - antmoc_mgxs/manip/h5.py
and proves properties of the embedded definitions.

Modelling conventions:
  - IEEE double-precision values are modelled as exact rationals.  Every
    numeric operation appearing in the modelled code paths (copying, sums
    of products, comparison against a constant) is exact-value faithful;
    decimal literals such as 1e-13 are modelled by the corresponding exact
    rational.  Bitwise preservation claims are settled by observing that the
    modelled code path performs no arithmetic at all on the values, only
    copies, so preservation holds for the exact values and hence for the
    underlying bit patterns.
  - Python exceptions are modelled by the error type PyErr together with
    Except; KeyError, ValueError, IndexError and ZeroDivisionError are
    distinguished because the specification distinguishes lookup errors
    from format and validation errors.
  - Python dicts are modelled as association lists with dict semantics:
    lookup finds the unique binding, assignment replaces an existing
    binding in place (keeping insertion order) or appends a new one.
  - numpy elementwise operations are modelled on lists of equal length;
    the degenerate length-one broadcast case is never exercised by the
    code paths under study and is not modelled.
-/

set_option autoImplicit false

namespace AntmocData

/-- Python exception classes relevant to the modelled code. -/
inductive PyErr where
  | keyError
  | valueError
  | indexError
  | zeroDivisionError
deriving DecidableEq, Repr

/-- Dict lookup on an association list: first binding wins. -/
def alistFind? {κ : Type} [DecidableEq κ] {α : Type} (l : List (κ × α)) (k : κ) : Option α :=
  match l with
  | [] => none
  | (k₀, v₀) :: rest => if k₀ = k then some v₀ else alistFind? rest k

/-- Dict assignment on an association list: replace the existing binding in
place (keeping insertion order), or append a new binding at the end. -/
def alistInsert {κ : Type} [DecidableEq κ] {α : Type} (l : List (κ × α)) (k : κ) (v : α) :
    List (κ × α) :=
  match l with
  | [] => [(k, v)]
  | (k₀, v₀) :: rest =>
      if k₀ = k then (k₀, v) :: rest else (k₀, v₀) :: alistInsert rest k v

/-- Dict membership test. -/
def alistHas {κ : Type} [DecidableEq κ] {α : Type} (l : List (κ × α)) (k : κ) : Bool :=
  (alistFind? l k).isSome

/-- Python list indexing with a non-negative index: an out-of-range access
raises IndexError. -/
def pyIndex {α : Type} (l : List α) (i : ℕ) : Except PyErr α :=
  match l.get? i with
  | some x => Except.ok x
  | none => Except.error PyErr.indexError

/-- Python list indexing with a possibly negative index: a negative index
counts from the end, as in strings[-1], and an index below -len raises
IndexError. -/
def pyIndexInt {α : Type} (l : List α) (i : ℤ) : Except PyErr α :=
  if i < 0 then
    if (l.length : ℤ) + i < 0 then Except.error PyErr.indexError
    else pyIndex l ((l.length : ℤ) + i).toNat
  else pyIndex l i.toNat

/-- Normalize one bound of a Python slice to the range [0, len]. -/
def pySliceBound (len : ℕ) (i : ℤ) : ℕ :=
  if i < 0 then ((len : ℤ) + i).toNat else i.toNat ⊓ len

/-- Python slicing l[a:b]; never raises. -/
def pySlice {α : Type} (l : List α) (a b : ℤ) : List α :=
  let lo := pySliceBound l.length a
  let hi := pySliceBound l.length b
  (l.drop lo).take (hi - lo)

/-- Whitespace characters of a single line (the inputs contain no newlines
inside a line, so space, tab and carriage return suffice). -/
def isPyWS (c : Char) : Bool :=
  c = ' ' || c = '\t' || c = '\r'

/-- Worker for splitWS: cs is the remaining input, acc the reversed chars
of the word currently being read. -/
def splitWSChars : List Char → List Char → List String
  | [], [] => []
  | [], acc => [String.mk acc.reverse]
  | c :: cs, acc =>
      if isPyWS c then
        match acc with
        | [] => splitWSChars cs []
        | _ => String.mk acc.reverse :: splitWSChars cs []
      else splitWSChars cs (c :: acc)

/-- Python str.split() without arguments: split on whitespace runs and drop
empty fragments, which also absorbs str.strip(). -/
def splitWS (s : String) : List String :=
  splitWSChars s.toList []

/-- Digits of a char list, as the pair (digit run, rest). -/
def takeDigits : List Char → List Char × List Char
  | [] => ([], [])
  | c :: cs =>
      if c.isDigit then
        let (ds, rest) := takeDigits cs
        (c :: ds, rest)
      else ([], c :: cs)

/-- Numeric value of a digit run (most significant digit first). -/
def digitsToNat (ds : List Char) : ℕ :=
  ds.foldl (fun acc c => 10 * acc + (c.toNat - 48)) 0

/-- Python int(word): an optional sign followed by a non-empty digit run and
nothing else; anything else raises ValueError. -/
def pyParseInt? (s : String) : Option ℤ :=
  let cs := s.toList
  let (sign, cs) : ℤ × List Char :=
    match cs with
    | '+' :: rest => (1, rest)
    | '-' :: rest => (-1, rest)
    | _ => (1, cs)
  let (ds, rest) := takeDigits cs
  if ds ≠ [] ∧ rest = [] then some (sign * (digitsToNat ds : ℤ)) else none

/-- Exponent part of a float literal: (e|E) sign? digits, or nothing. -/
def parseExponent : List Char → Option ℤ
  | [] => some 0
  | c :: cs =>
      if c = 'e' ∨ c = 'E' then
        let (esign, cs) : ℤ × List Char :=
          match cs with
          | '+' :: rest => (1, rest)
          | '-' :: rest => (-1, rest)
          | _ => (1, cs)
        let (ds, rest) := takeDigits cs
        if ds ≠ [] ∧ rest = [] then some (esign * (digitsToNat ds : ℤ)) else none
      else none

/-- np.float64(word) on a finite decimal literal: optional sign, integer
part and/or fractional part (at least one digit overall), optional
exponent.  The value is the exact rational denoted by the literal. -/
def pyParseFloat? (s : String) : Option ℚ :=
  let cs := s.toList
  let (sign, cs) : ℚ × List Char :=
    match cs with
    | '+' :: rest => (1, rest)
    | '-' :: rest => (-1, rest)
    | _ => (1, cs)
  let (ipart, cs) := takeDigits cs
  let (fpart, cs) :=
    match cs with
    | '.' :: rest => takeDigits rest
    | _ => ([], cs)
  if ipart = [] ∧ fpart = [] then none
  else
    match parseExponent cs with
    | none => none
    | some e =>
        let mantissa : ℚ := (digitsToNat ipart : ℚ) + (digitsToNat fpart : ℚ) / 10 ^ fpart.length
        some (sign * mantissa * 10 ^ e)

/-- Parse every word of a list as a float; a bad word raises ValueError. -/
def parseFloats (ws : List String) : Except PyErr (List ℚ) :=
  match ws with
  | [] => Except.ok []
  | w :: rest =>
      match pyParseFloat? w with
      | none => Except.error PyErr.valueError
      | some q => do
          let qs ← parseFloats rest
          pure (q :: qs)

/-- Parse every word of a list as an int; a bad word raises ValueError. -/
def parseInts (ws : List String) : Except PyErr (List ℤ) :=
  match ws with
  | [] => Except.ok []
  | w :: rest =>
      match pyParseInt? w with
      | none => Except.error PyErr.valueError
      | some z => do
          let zs ← parseInts rest
          pure (z :: zs)

/-- Whether an Except value is a success. -/
def isOk {ε α : Type} : Except ε α → Bool
  | Except.ok _ => true
  | Except.error _ => false

deriving instance DecidableEq for Except

/-! ## Material (material.py)

A Material holds a dict of cross-section arrays.  Arrays loaded from a
container are one-dimensional (the named dump flattens on write), so the
model represents every array as a flat list of rationals. -/

/-- Material.xslist: data entry names required by antmoc. -/
def xslist : List String :=
  ["absorption", "fission", "total", "transport", "nu-fission", "chi", "scatter matrix"]

/-- Material.xsindices: the column index map for the compact layout.
convert_layout writes exactly this map into a compact file and reads the
same map back when converting in the other direction, so both directions
of the round trip use this constant map. -/
def xsindices : List (String × ℕ) :=
  [("absorption", 0), ("fission", 1), ("transport", 2), ("nu-fission", 3), ("chi", 4)]

/-- columns = int(max(Material.xsindices.values())) + 1. -/
def ncolumns : ℕ := (xsindices.map Prod.snd).foldl max 0 + 1

/-- The in-memory Material object: name, optional description, number of
energy groups, and the dict of cross-section arrays. -/
structure Material where
  name : String
  info : String
  ngroups : ℕ
  data : List (String × List ℚ)
deriving DecidableEq, Repr

/-- Material.__getitem__: a missing cross-section name raises KeyError. -/
def getXs (m : Material) (xsname : String) : Except PyErr (List ℚ) :=
  match alistFind? m.data xsname with
  | some arr => Except.ok arr
  | none => Except.error PyErr.keyError

/-- Whether pat is a prefix of the char list. -/
def charsHavePrefix : List Char → List Char → Bool
  | [], _ => true
  | _ :: _, [] => false
  | p :: ps, c :: cs => p = c && charsHavePrefix ps cs

/-- Whether pat occurs as a contiguous substring of the char list. -/
def charsHaveInfix (pat : List Char) : List Char → Bool
  | [] => charsHavePrefix pat []
  | c :: cs => charsHavePrefix pat (c :: cs) || charsHaveInfix pat cs

/-- xsname.find("scatter") >= 0, i.e. "scatter" occurs in the name. -/
def scatterInName (s : String) : Bool :=
  charsHaveInfix "scatter".toList s.toList

/-- One entry of Material._check_xs_size: a scatter array length must be
divisible by ngroups^2 (a zero ngroups raises ZeroDivisionError in the
modulo), any other array length must equal ngroups. -/
def checkXsSizeEntries (n : ℕ) : List (String × List ℚ) → Except PyErr Unit
  | [] => Except.ok ()
  | (xsname, arr) :: rest =>
      if scatterInName xsname then
        if n * n = 0 then Except.error PyErr.zeroDivisionError
        else if arr.length % (n * n) ≠ 0 then Except.error PyErr.valueError
        else checkXsSizeEntries n rest
      else if arr.length ≠ n then Except.error PyErr.valueError
      else checkXsSizeEntries n rest

/-- Material._check_xs_size. -/
def checkXsSize (m : Material) : Except PyErr Unit :=
  checkXsSizeEntries m.ngroups m.data

/-- Split a flat list into rows of n elements (row-major). -/
def listChunks {α : Type} (n : ℕ) (l : List α) : List (List α) :=
  match l with
  | [] => []
  | x :: xs =>
      if h : n = 0 then []
      else ((x :: xs).take n) :: listChunks n ((x :: xs).drop n)
termination_by l.length
decreasing_by
  have h1 : 0 < n := Nat.pos_of_ne_zero h
  simpa using Nat.sub_lt (Nat.succ_pos xs.length) h1

/-- np.reshape(arr, (n, n)): fails with ValueError unless the array has
exactly n*n elements.  In particular a scatter array holding more than one
Legendre order (length k*n^2, k >= 2) makes the reshape fail; nothing is
dropped silently. -/
def npReshapeSquare (arr : List ℚ) (n : ℕ) : Except PyErr (List (List ℚ)) :=
  if arr.length = n * n then Except.ok (listChunks n arr)
  else Except.error PyErr.valueError

/-- The compact-layout H5 group of one material: the "reactions" dataset
(stored here by columns, which is how both the writer and the reader
access it), and the "scattering" dataset stored by rows. -/
structure CompactGroup where
  info : String
  nrows : ℕ
  cols : List (List ℚ)
  scattering : List (List ℚ)
deriving DecidableEq, Repr

/-- The column-assignment loop of Material._dump_h5_compact:
reactions[:, xsindex] = self[xsname] for every indexed name.  A missing
name raises KeyError; a length mismatch raises ValueError (numpy
broadcast failure). -/
def assignColumns (m : Material) : List (String × ℕ) → List (List ℚ) →
    Except PyErr (List (List ℚ))
  | [], cols => Except.ok cols
  | (xsname, idx) :: rest, cols => do
      let arr ← getXs m xsname
      if arr.length = m.ngroups then assignColumns m rest (cols.set idx arr)
      else Except.error PyErr.valueError

/-- Material._dump_h5_compact: build the reactions dataset from the
indexed arrays (unmentioned columns keep their np.zeros fill) and reshape
the scatter array to (ngroups, ngroups). -/
def dumpH5Compact (m : Material) : Except PyErr CompactGroup := do
  let cols ← assignColumns m xsindices
    (List.replicate ncolumns (List.replicate m.ngroups 0))
  let s ← getXs m "scatter matrix"
  let scat ← npReshapeSquare s m.ngroups
  pure ⟨m.info, m.ngroups, cols, scat⟩

/-- Material.dump with layout "compact": size validation, then the dump. -/
def dumpCompact (m : Material) : Except PyErr CompactGroup := do
  checkXsSize m
  dumpH5Compact m

/-- The named-layout H5 group of one material: one dataset per
cross-section name, each array flattened on write (the model's arrays are
already flat, so flatten is the identity). -/
def dumpH5Named (m : Material) : List (String × List ℚ) :=
  m.data

/-- Material.dump with layout "named". -/
def dumpNamed (m : Material) : Except PyErr (List (String × List ℚ)) := do
  checkXsSize m
  pure (dumpH5Named m)

/-- Material.load with layout "named": pick up every name of
Material.xslist present in the group, then validate sizes. -/
def loadNamed (name : String) (ngroups : ℕ) (g : List (String × List ℚ)) :
    Except PyErr Material := do
  let data := xslist.foldl
    (fun d xsname =>
      match alistFind? g xsname with
      | some arr => alistInsert d xsname arr
      | none => d) []
  let m : Material := ⟨name, "", ngroups, data⟩
  checkXsSize m
  pure m

/-- Material.load with layout "compact": check the reactions shape
([ngroups, >= ncolumns]), read one column per indexed name, check the
scattering shape (square), flatten it, then validate sizes. -/
def loadCompact (name : String) (ngroups : ℕ) (g : CompactGroup) :
    Except PyErr Material := do
  if g.nrows ≠ ngroups ∨ g.cols.length < ncolumns then Except.error PyErr.valueError
  else
    let data := xsindices.foldl (fun d p => alistInsert d p.1 (g.cols.getD p.2 [])) []
    if g.scattering.length ≠ (g.scattering.headD []).length then
      Except.error PyErr.valueError
    else
      let data := alistInsert data "scatter matrix" g.scattering.flatten
      let m : Material := ⟨name, g.info, ngroups, data⟩
      do checkXsSize m; pure m

/-- convert_layout applied twice to one material: load it from a named
group, dump it compact, load the compact group back, and dump it named
again.  The "# groups" attribute is written and read back unchanged, and
so is the column index map (see xsindices), so both are passed through
directly. -/
def roundtripNamedGroup (name : String) (n : ℕ) (F : List (String × List ℚ)) :
    Except PyErr (List (String × List ℚ)) := do
  let m ← loadNamed name n F
  let c ← dumpCompact m
  let m2 ← loadCompact name n c
  checkXsSize m2
  pure (dumpH5Named m2)

/-! ## Consistency checking (material.py, manip/h5.py) -/

/-- np.sum(scatter[g*n : g*n+n]): the row-g sum of the 0th-order scatter
matrix. -/
def rowSum (s : List ℚ) (n g : ℕ) : ℚ :=
  (((s.drop (g * n)).take n)).sum

/-- The loop of build_sigma_total: sigma_total[group] += row sum, for
group in range(n); entries at positions n and beyond stay as copied.  The
argument g is the position of the current head within the whole array. -/
def addRowSums (s : List ℚ) (n : ℕ) : List ℚ → ℕ → List ℚ
  | [], _ => []
  | x :: xs, g => (if g < n then x + rowSum s n g else x) :: addRowSums s n xs (g + 1)

/-- Material.build_sigma_total: copy 'absorption' and add the row sums of
the 0th-order scatter matrix for the first ngroups entries.  Writing to a
group index beyond the absorption length raises IndexError. -/
def buildSigmaTotal (m : Material) : Except PyErr (List ℚ) := do
  let s ← getXs m "scatter matrix"
  let a ← getXs m "absorption"
  if m.ngroups ≤ a.length then
    Except.ok (addRowSums s m.ngroups a 0)
  else Except.error PyErr.indexError

/-- numpy elementwise subtraction of equal-length arrays. -/
def npSub (a b : List ℚ) : Except PyErr (List ℚ) :=
  if a.length = b.length then Except.ok (List.zipWith (fun x y => x - y) a b)
  else Except.error PyErr.valueError

/-- The diagonal-update loop of Material.fix_scatter_matrix:
scatter[g*n+g] += delta[g] for g in range(n); an index beyond either array
raises IndexError.  The counter k counts the remaining iterations, so the
current group is g = n - k. -/
def fixDiagonal (n : ℕ) (delta : List ℚ) : List ℚ → ℕ → Except PyErr (List ℚ)
  | s, 0 => Except.ok s
  | s, Nat.succ k =>
      if (n - Nat.succ k) * n + (n - Nat.succ k) < s.length ∧ n - Nat.succ k < delta.length
      then
        fixDiagonal n delta
          (s.set ((n - Nat.succ k) * n + (n - Nat.succ k))
            (s.getD ((n - Nat.succ k) * n + (n - Nat.succ k)) 0
              + delta.getD (n - Nat.succ k) 0)) k
      else Except.error PyErr.indexError

/-- Material.fix_scatter_matrix: delta = transport - build_sigma_total(),
added to the 0th-order diagonal entries of the scatter matrix. -/
def fixScatterMatrix (m : Material) : Except PyErr Material := do
  let t ← getXs m "transport"
  let st ← buildSigmaTotal m
  let delta ← npSub t st
  let s ← getXs m "scatter matrix"
  let s2 ← fixDiagonal m.ngroups delta s m.ngroups
  pure ⟨m.name, m.info, m.ngroups, alistInsert m.data "scatter matrix" s2⟩

/-- Material.fix_sigma_total: overwrite 'total' with build_sigma_total(). -/
def fixSigmaTotal (m : Material) : Except PyErr Material := do
  let st ← buildSigmaTotal m
  pure ⟨m.name, m.info, m.ngroups, alistInsert m.data "total" st⟩

/-- The default of the tolerance parameter in check_sigma_t's signature. -/
def defaultTolerance : ℚ := 1 / 10 ^ 15

/-- The constant hard-coded inside check_sigma_t's comparison.  The body
compares against 1e-13 and never reads the tolerance parameter. -/
def hardcodedTolerance : ℚ := 1 / 10 ^ 13

/-- The per-material, per-array body of check_sigma_t: the 1-based group
numbers i+1 with material[xs][i] < expected[i] - 1e-13.  The tolerance
argument reproduces the function parameter, which the body ignores. -/
def sigmaTBadGroups (m : Material) (xs : String) (tolerance : ℚ) :
    Except PyErr (List ℕ) := do
  let _ := tolerance
  let expected ← buildSigmaTotal m
  let declared ← getXs m xs
  if m.ngroups ≤ declared.length ∧ m.ngroups ≤ expected.length then
    Except.ok (((List.range m.ngroups).filter
      fun i => decide (declared.getD i 0 < expected.getD i 0 - hardcodedTolerance)).map
      (fun i => i + 1))
  else Except.error PyErr.indexError

/-! ## Facts about the embedded definitions -/

theorem getXs_of_find {m : Material} {x : String} {arr : List ℚ}
    (h : alistFind? m.data x = some arr) : getXs m x = Except.ok arr := by
  simp [getXs, h]

/-- A one-group material whose declared total is 10^-14 below the expected
total: inside the default tolerance 10^-15 claimed by the signature, but
outside the hard-coded 10^-13 actually used by check_sigma_t. -/
def materialC2 : Material :=
  ⟨"m", "", 1,
    [("absorption", [1]), ("total", [1 - 1 / 10 ^ 14]), ("scatter matrix", [0])]⟩

/-- C2: check_sigma_total is claimed to flag, for each of total/transport,
exactly the groups with declared < expected - eps at the default tolerance
eps = 1e-15.  The code never reads its tolerance parameter: it compares
against a hard-coded 1e-13.  On materialC2 the expected total is 1 and the
declared total is 1 - 1e-14 < 1 - 1e-15, so the claim flags group 1, yet
the code flags nothing. -/
theorem check_sigma_t_ignores_tolerance :
    buildSigmaTotal materialC2 = Except.ok [1]
    ∧ getXs materialC2 "total" = Except.ok [1 - 1 / 10 ^ 14]
    ∧ ((1 : ℚ) - 1 / 10 ^ 14 < 1 - defaultTolerance)
    ∧ sigmaTBadGroups materialC2 "total" defaultTolerance = Except.ok [] := by
  refine ⟨?_, by rfl, by norm_num [defaultTolerance], ?_⟩
  · show Except.ok (addRowSums [0] 1 [1] 0) = Except.ok [1]
    norm_num [addRowSums, rowSum]
  · show Except.ok (((List.range 1).filter
        fun i => decide ((([1 - 1 / 10 ^ 14] : List ℚ).getD i 0
          < (addRowSums [0] 1 [1] 0).getD i 0 - hardcodedTolerance))).map
        (fun i => i + 1)) = Except.ok []
    norm_num [addRowSums, rowSum, hardcodedTolerance, List.range, List.range.loop]

/-- Distinct groups occupy distinct diagonal positions of the flattened
0th-order scatter matrix. -/
theorem diag_index_ne {n g g2 : ℕ} (hg : g < n) (hne : g < g2) :
    g * n + g ≠ g2 * n + g2 := by
  have h1 : g * n + n ≤ g2 * n := by
    calc g * n + n = (g + 1) * n := by ring
    _ ≤ g2 * n := Nat.mul_le_mul_right n (Nat.succ_le_of_lt hne)
  omega

/-- The diagonal-update loop: processing the groups g with n-k <= g < n
adds delta[g] at flat index g*n+g and touches nothing else. -/
theorem fixDiagonal_spec (n : ℕ) (delta : List ℚ) (k : ℕ) (s : List ℚ)
    (hk : k ≤ n)
    (hidx : ∀ g, g < n → g * n + g < s.length)
    (hdelta : n ≤ delta.length) :
    ∃ s2, fixDiagonal n delta s k = Except.ok s2 ∧ s2.length = s.length
      ∧ (∀ g, n - k ≤ g → g < n →
          s2.get? (g * n + g) = some (s.getD (g * n + g) 0 + delta.getD g 0))
      ∧ (∀ i, (∀ g, n - k ≤ g → g < n → i ≠ g * n + g) → s2.get? i = s.get? i) := by
  induction k generalizing s with
  | zero =>
      exact ⟨s, rfl, rfl, fun g hg hg2 => by omega, fun i _ => rfl⟩
  | succ k ih =>
      have hg0n : n - Nat.succ k < n := by omega
      have hin : (n - Nat.succ k) * n + (n - Nat.succ k) < s.length := hidx _ hg0n
      have hdin : n - Nat.succ k < delta.length := lt_of_lt_of_le hg0n hdelta
      have hstep : fixDiagonal n delta s (Nat.succ k) =
          fixDiagonal n delta
            (s.set ((n - Nat.succ k) * n + (n - Nat.succ k))
              (s.getD ((n - Nat.succ k) * n + (n - Nat.succ k)) 0
                + delta.getD (n - Nat.succ k) 0)) k := by
        rw [fixDiagonal, if_pos ⟨hin, hdin⟩]
      obtain ⟨s2, hrun, hlen, hdiag, hrest⟩ :=
        ih (s.set ((n - Nat.succ k) * n + (n - Nat.succ k))
              (s.getD ((n - Nat.succ k) * n + (n - Nat.succ k)) 0
                + delta.getD (n - Nat.succ k) 0))
           (Nat.le_of_succ_le hk)
           (by intro g hg; simpa using hidx g hg)
      refine ⟨s2, by rw [hstep, hrun], by simpa using hlen, ?_, ?_⟩
      · intro g hg1 hg2
        rcases eq_or_lt_of_le hg1 with heq | hlt
        · -- g is exactly the group handled by this iteration
          subst heq
          have huntouched : ∀ g2, n - k ≤ g2 → g2 < n →
              (n - Nat.succ k) * n + (n - Nat.succ k) ≠ g2 * n + g2 := by
            intro g2 hg21 hg22
            exact diag_index_ne hg0n (by omega)
          rw [hrest _ (fun g2 hg21 hg22 => huntouched g2 hg21 hg22)]
          rw [List.get?_set_eq_of_lt _ hin]
        · -- g is handled by a later iteration
          rw [hdiag g (by omega) hg2]
          have hne : (n - Nat.succ k) * n + (n - Nat.succ k) ≠ g * n + g :=
            diag_index_ne hg0n (by omega)
          simp [List.getD_eq_getD_get?, List.get?_set_ne _ _ hne,
            List.getElem?_set_ne hne]
      · intro i hi
        have h2 : ∀ g, n - k ≤ g → g < n → i ≠ g * n + g :=
          fun g hg1 hg2 => hi g (by omega) hg2
        rw [hrest i h2, List.get?_set_ne]
        exact fun hcontra => hi _ (by omega) hg0n hcontra.symm

theorem alistFind?_insert_self {κ α : Type} [DecidableEq κ]
    (l : List (κ × α)) (k : κ) (v : α) :
    alistFind? (alistInsert l k v) k = some v := by
  induction l with
  | nil => simp [alistInsert, alistFind?]
  | cons p rest ih =>
      obtain ⟨k0, v0⟩ := p
      by_cases hk : k0 = k
      · subst hk; simp [alistInsert, alistFind?]
      · simp [alistInsert, alistFind?, hk, ih]

theorem alistFind?_insert_ne {κ α : Type} [DecidableEq κ]
    (l : List (κ × α)) (k k2 : κ) (v : α) (h : k ≠ k2) :
    alistFind? (alistInsert l k v) k2 = alistFind? l k2 := by
  induction l with
  | nil => simp [alistInsert, alistFind?, h]
  | cons p rest ih =>
      obtain ⟨k0, v0⟩ := p
      by_cases hk : k0 = k
      · subst hk; simp [alistInsert, alistFind?, h, ih]
      · simp [alistInsert, alistFind?, hk, ih]

theorem addRowSums_length (s : List ℚ) (n : ℕ) (a : List ℚ) (g0 : ℕ) :
    (addRowSums s n a g0).length = a.length := by
  induction a generalizing g0 with
  | nil => rfl
  | cons x xs ih => simp [addRowSums, ih]

theorem addRowSums_getElem? (s : List ℚ) (n : ℕ) (a : List ℚ) (g0 i : ℕ) :
    (addRowSums s n a g0)[i]?
      = (a[i]?).map (fun x => if g0 + i < n then x + rowSum s n (g0 + i) else x) := by
  induction a generalizing g0 i with
  | nil => simp [addRowSums]
  | cons x xs ih =>
      cases i with
      | zero => simp [addRowSums]
      | succ j =>
          have hidx : g0 + 1 + j = g0 + (j + 1) := by omega
          simp [addRowSums, ih (g0 + 1) j, hidx]

theorem getD_zipWith_sub (t u : List ℚ) (g : ℕ) (h1 : g < t.length) (h2 : g < u.length) :
    (List.zipWith (fun x y => x - y) t u).getD g 0 = t.getD g 0 - u.getD g 0 := by
  obtain ⟨vt, hvt⟩ : ∃ v, t[g]? = some v := ⟨_, List.getElem?_eq_getElem h1⟩
  obtain ⟨vu, hvu⟩ : ∃ v, u[g]? = some v := ⟨_, List.getElem?_eq_getElem h2⟩
  simp [List.getD_eq_getD_get?, List.getElem?_zipWith', hvt, hvu]

/-- C8: fix_scatter_matrix adds delta[g] = transport[g] - (absorption[g] +
row-g scatter sum) to the 0th-order diagonal entry (g,g) only; every other
scatter entry and every other array of the material is unchanged. -/
theorem fix_scatter_matrix_frame (m : Material) (t a s : List ℚ)
    (ht : alistFind? m.data "transport" = some t)
    (ha : alistFind? m.data "absorption" = some a)
    (hs : alistFind? m.data "scatter matrix" = some s)
    (hlt : t.length = m.ngroups) (hla : a.length = m.ngroups)
    (hls : m.ngroups * m.ngroups ≤ s.length) :
    ∃ s2,
      fixScatterMatrix m
        = Except.ok ⟨m.name, m.info, m.ngroups, alistInsert m.data "scatter matrix" s2⟩
      ∧ s2.length = s.length
      ∧ (∀ g, g < m.ngroups →
          s2.get? (g * m.ngroups + g)
            = some (s.getD (g * m.ngroups + g) 0
                + (t.getD g 0 - (a.getD g 0 + rowSum s m.ngroups g))))
      ∧ (∀ i, (∀ g, g < m.ngroups → i ≠ g * m.ngroups + g) → s2.get? i = s.get? i)
      ∧ (∀ x, x ≠ "scatter matrix" →
          alistFind? (alistInsert m.data "scatter matrix" s2) x = alistFind? m.data x) := by
  have hst : buildSigmaTotal m = Except.ok (addRowSums s m.ngroups a 0) := by
    simp [buildSigmaTotal, getXs, hs, ha, hla, Bind.bind, Except.bind]
  have hstlen : (addRowSums s m.ngroups a 0).length = m.ngroups := by
    rw [addRowSums_length, hla]
  have hstget : ∀ g, g < m.ngroups →
      (addRowSums s m.ngroups a 0).getD g 0 = a.getD g 0 + rowSum s m.ngroups g := by
    intro g hg
    have hg2 : g < a.length := by omega
    obtain ⟨v, hv⟩ : ∃ v, a[g]? = some v := ⟨_, List.getElem?_eq_getElem hg2⟩
    simp [List.getD_eq_getD_get?, addRowSums_getElem?, hv, hg]
  have hnp : npSub t (addRowSums s m.ngroups a 0)
      = Except.ok (List.zipWith (fun x y => x - y) t (addRowSums s m.ngroups a 0)) := by
    simp [npSub, hlt, hstlen]
  have hdlen : (List.zipWith (fun x y => x - y) t (addRowSums s m.ngroups a 0)).length
      = m.ngroups := by
    simp [List.length_zipWith, hlt, hstlen]
  have hdget : ∀ g, g < m.ngroups →
      (List.zipWith (fun x y => x - y) t (addRowSums s m.ngroups a 0)).getD g 0
        = t.getD g 0 - (a.getD g 0 + rowSum s m.ngroups g) := by
    intro g hg
    rw [getD_zipWith_sub t _ g (by omega) (by omega), hstget g hg]
  have hidx : ∀ g, g < m.ngroups → g * m.ngroups + g < s.length := by
    intro g hg
    have h1 : (g + 1) * m.ngroups ≤ m.ngroups * m.ngroups :=
      Nat.mul_le_mul_right _ (Nat.succ_le_of_lt hg)
    have h2 : g * m.ngroups + g < (g + 1) * m.ngroups := by
      have : (g + 1) * m.ngroups = g * m.ngroups + m.ngroups := by ring
      omega
    omega
  obtain ⟨s2, hrun, hlen2, hdiag, hrest⟩ :=
    fixDiagonal_spec m.ngroups (List.zipWith (fun x y => x - y) t (addRowSums s m.ngroups a 0))
      m.ngroups s le_rfl hidx (by omega)
  refine ⟨s2, ?_, hlen2, ?_, ?_, ?_⟩
  · simp [fixScatterMatrix, getXs, ht, hs, hst, hnp, hrun, Bind.bind, Except.bind,
      Pure.pure, Except.pure]
  · intro g hg
    rw [hdiag g (by omega) hg, hdget g hg]
  · intro i hi
    exact hrest i (fun g _ hg => hi g hg)
  · intro x hx
    exact alistFind?_insert_ne m.data "scatter matrix" x s2 (fun hc => hx hc.symm)

/-- A two-group material for exercising fix_scatter_matrix. -/
def materialC8 : Material :=
  ⟨"w", "", 2,
    [("absorption", [1, 2]), ("transport", [4, 5]), ("scatter matrix", [1, 0, 0, 1])]⟩

/-- Witness for fix_scatter_matrix_frame: on materialC8 the deltas are
4 - (1+1) = 2 and 5 - (2+1) = 2, so the scatter diagonal becomes 3, 3 and
the off-diagonal entries stay 0. -/
theorem fix_scatter_matrix_frame_witness :
    ∃ s2,
      fixScatterMatrix materialC8
        = Except.ok ⟨"w", "", 2, alistInsert materialC8.data "scatter matrix" s2⟩
      ∧ s2.get? 0 = some 3 ∧ s2.get? 3 = some 3
      ∧ s2.get? 1 = some 0 ∧ s2.get? 2 = some 0
      ∧ alistFind? (alistInsert materialC8.data "scatter matrix" s2) "transport"
          = some [4, 5] := by
  obtain ⟨s2, h1, h2, h3, h4, h5⟩ :=
    fix_scatter_matrix_frame materialC8 [4, 5] [1, 2] [1, 0, 0, 1]
      (by rfl) (by rfl) (by rfl) (by rfl) (by rfl) (by norm_num [materialC8])
  simp only [materialC8] at h1 h3 h4 h5 ⊢
  refine ⟨s2, h1, ?_, ?_, ?_, ?_, ?_⟩
  · have h := h3 0 (by norm_num)
    norm_num [rowSum] at h
    simpa using h
  · have h := h3 1 (by norm_num)
    norm_num [rowSum] at h
    simpa using h
  · have h := h4 1 (by intro g hg; omega)
    rw [h]; rfl
  · have h := h4 2 (by intro g hg; omega)
    rw [h]; rfl
  · rw [h5 "transport" (by simp)]; rfl

/-! ## Layout round trip (C1) -/

theorem scatterInName_absorption : scatterInName "absorption" = false := by rfl
theorem scatterInName_fission : scatterInName "fission" = false := by rfl
theorem scatterInName_total : scatterInName "total" = false := by rfl
theorem scatterInName_transport : scatterInName "transport" = false := by rfl
theorem scatterInName_nufission : scatterInName "nu-fission" = false := by rfl
theorem scatterInName_chi : scatterInName "chi" = false := by rfl
theorem scatterInName_scatter : scatterInName "scatter matrix" = true := by rfl

theorem ncolumns_eq : ncolumns = 5 := by rfl

theorem listChunks_nil {α : Type} (n : ℕ) : listChunks n ([] : List α) = [] := by
  simp [listChunks]

theorem listChunks_flatten_aux {α : Type} (n : ℕ) (hn : 0 < n) :
    ∀ (k : ℕ) (l : List α), l.length ≤ k → (listChunks n l).flatten = l := by
  intro k
  induction k with
  | zero =>
      intro l hl
      have hnil : l = [] := List.eq_nil_of_length_eq_zero (by omega)
      subst hnil
      simp [listChunks_nil]
  | succ k ih =>
      intro l hl
      match l with
      | [] => simp [listChunks_nil]
      | x :: xs =>
          rw [listChunks, dif_neg (by omega)]
          have hdl : ((x :: xs).drop n).length ≤ k := by
            simp only [List.length_drop, List.length_cons]
            simp only [List.length_cons] at hl
            omega
          rw [List.flatten_cons, ih ((x :: xs).drop n) hdl]
          exact List.take_append_drop n (x :: xs)

theorem listChunks_flatten {α : Type} (n : ℕ) (hn : 0 < n) (l : List α) :
    (listChunks n l).flatten = l :=
  listChunks_flatten_aux n hn l.length l le_rfl

theorem listChunks_length_mul {α : Type} (n : ℕ) (hn : 0 < n) :
    ∀ (m : ℕ) (l : List α), l.length = m * n → (listChunks n l).length = m := by
  intro m
  induction m with
  | zero =>
      intro l hl
      have hnil : l = [] := List.eq_nil_of_length_eq_zero (by omega)
      subst hnil
      simp [listChunks_nil]
  | succ m ih =>
      intro l hl
      have hexp : (m + 1) * n = m * n + n := by ring
      match l with
      | [] =>
          simp only [List.length_nil] at hl
          rw [hexp] at hl
          omega
      | x :: xs =>
          rw [listChunks, dif_neg (by omega)]
          have hdl : ((x :: xs).drop n).length = m * n := by
            simp only [List.length_drop, List.length_cons]
            simp only [List.length_cons] at hl
            rw [hexp] at hl
            omega
          rw [List.length_cons, ih ((x :: xs).drop n) hdl]

theorem listChunks_head_length {α : Type} (n : ℕ) (hn : 0 < n) (l : List α)
    (hl : l.length = n * n) : ((listChunks n l).headD []).length = n := by
  match l with
  | [] =>
      simp at hl
      omega
  | x :: xs =>
      rw [listChunks, dif_neg (by omega)]
      simp only [List.headD_cons, List.length_take]
      have : n ≤ (x :: xs).length := by nlinarith
      omega

/-- C1 (amended): for a named group holding the five indexed vector arrays
of length ngroups and a single-order scatter array of length ngroups^2,
converting Named -> Compact -> Named reproduces exactly those six arrays,
value for value (the code only copies these values, so the preservation is
bitwise); any further array allowed by the named layout, such as 'total',
does not survive the compact step. -/
theorem convert_layout_roundtrip (name : String) (n : ℕ) (hn : 0 < n)
    (F : List (String × List ℚ)) (a f t nf c s : List ℚ)
    (ha : alistFind? F "absorption" = some a)
    (hf : alistFind? F "fission" = some f)
    (ht : alistFind? F "transport" = some t)
    (hnf : alistFind? F "nu-fission" = some nf)
    (hc : alistFind? F "chi" = some c)
    (hs : alistFind? F "scatter matrix" = some s)
    (hla : a.length = n) (hlf : f.length = n) (hlt : t.length = n)
    (hlnf : nf.length = n) (hlc : c.length = n)
    (hls : s.length = n * n)
    (htot : ∀ u, alistFind? F "total" = some u → u.length = n) :
    roundtripNamedGroup name n F
      = Except.ok [("absorption", a), ("fission", f), ("transport", t),
          ("nu-fission", nf), ("chi", c), ("scatter matrix", s)] := by
  have hnn : n * n ≠ 0 := Nat.mul_ne_zero (by omega) (by omega)
  have hchunklen : (listChunks n s).length = n :=
    listChunks_length_mul n hn n s (by omega)
  have hchunkhead : ((listChunks n s).headD []).length = n :=
    listChunks_head_length n hn s hls
  have hchunkhead2 : ((listChunks n s).head?.getD []).length = n := by
    cases hc2 : listChunks n s with
    | nil => rw [hc2] at hchunkhead; simpa using hchunkhead
    | cons y ys => rw [hc2] at hchunkhead; simpa using hchunkhead
  have hflat : (listChunks n s).flatten = s := listChunks_flatten n hn s
  cases htot0 : alistFind? F "total" with
  | none =>
      simp only [roundtripNamedGroup, loadNamed, xslist, List.foldl,
        ha, hf, ht, hnf, hc, hs, htot0, alistInsert, alistFind?]
      simp [checkXsSize, checkXsSizeEntries, scatterInName_absorption,
        scatterInName_fission, scatterInName_transport, scatterInName_nufission,
        scatterInName_chi, scatterInName_scatter, hla, hlf, hlt, hlnf, hlc, hls,
        hnn, Nat.mod_self, dumpCompact, dumpH5Compact, assignColumns, xsindices,
        getXs, alistFind?, ncolumns_eq, npReshapeSquare, loadCompact, hchunklen,
        hchunkhead, hchunkhead2, hflat, dumpH5Named, alistInsert, Bind.bind, Except.bind,
        Pure.pure, Except.pure]
  | some u =>
      have hlu : u.length = n := htot u htot0
      simp only [roundtripNamedGroup, loadNamed, xslist, List.foldl,
        ha, hf, ht, hnf, hc, hs, htot0, alistInsert, alistFind?]
      simp [checkXsSize, checkXsSizeEntries, scatterInName_absorption,
        scatterInName_fission, scatterInName_total, scatterInName_transport,
        scatterInName_nufission, scatterInName_chi, scatterInName_scatter,
        hla, hlf, hlt, hlnf, hlc, hls, hlu, hnn, Nat.mod_self, dumpCompact,
        dumpH5Compact, assignColumns, xsindices, getXs, alistFind?, ncolumns_eq,
        npReshapeSquare, loadCompact, hchunklen, hchunkhead, hchunkhead2, hflat, dumpH5Named,
        alistInsert, Bind.bind, Except.bind, Pure.pure, Except.pure]

/-- A one-group named group holding all seven arrays of Material.xslist. -/
def namedGroupC1 : List (String × List ℚ) :=
  [("absorption", [1]), ("fission", [2]), ("total", [9]), ("transport", [3]),
   ("nu-fission", [4]), ("chi", [5]), ("scatter matrix", [6])]

/-- Witness for convert_layout_roundtrip: the five indexed arrays and the
scatter matrix of namedGroupC1 survive the round trip unchanged, and the
array 'total' is gone. -/
theorem convert_layout_roundtrip_witness :
    roundtripNamedGroup "A" 1 namedGroupC1
      = Except.ok [("absorption", [1]), ("fission", [2]), ("transport", [3]),
          ("nu-fission", [4]), ("chi", [5]), ("scatter matrix", [6])] :=
  convert_layout_roundtrip "A" 1 one_pos namedGroupC1 [1] [2] [3] [4] [5] [6]
    rfl rfl rfl rfl rfl rfl rfl rfl rfl rfl rfl rfl
    (fun u hu => by
      have h9 : ([9] : List ℚ) = u := Option.some.inj hu
      rw [← h9]
      rfl)

/-- A two-group named group whose scatter array holds two Legendre orders
(length 2 * 2^2 = 8); every vector array has length ngroups = 2. -/
def namedGroupC1bad : List (String × List ℚ) :=
  [("absorption", [1, 1]), ("fission", [1, 1]), ("total", [1, 1]),
   ("transport", [1, 1]), ("nu-fission", [1, 1]), ("chi", [1, 1]),
   ("scatter matrix", [1, 2, 3, 4, 5, 6, 7, 8])]

/-- C1 counterexample: on a material whose vector arrays all have length
ngroups but whose scatter array holds a second Legendre order, the
Named -> Compact conversion does not silently drop the higher order: the
np.reshape to (ngroups, ngroups) fails, so the whole conversion raises a
ValueError and no round trip happens at all. -/
theorem convert_layout_multi_order_fails :
    (∀ p ∈ namedGroupC1bad, p.1 = "scatter matrix" ∨ p.2.length = 2)
    ∧ ((alistFind? namedGroupC1bad "scatter matrix").getD []).length = 2 * (2 * 2)
    ∧ roundtripNamedGroup "A" 2 namedGroupC1bad = Except.error PyErr.valueError := by
  refine ⟨by decide, by rfl, by rfl⟩

/-! ## Weight normalization (materialxml.py)

MaterialXML.add_weight tests math.log10(id) > 4 and math.log10(id) < 3.
For positive integers these floating-point comparisons are exact:
log10 is strictly monotone, log10(10000) is exactly 4.0 and log10(1000)
is exactly 3.0 in double precision, and no nearby value rounds across
these thresholds, so log10(id) > 4 iff id > 10000 and log10(id) < 3 iff
id < 1000.  math.log10(0) raises a math domain error (ValueError). -/

/-- The id normalization inside MaterialXML.add_weight. -/
def normalizeUid (raw : ℕ) : Except PyErr ℕ :=
  if raw = 0 then Except.error PyErr.valueError
  else
    let r := if 10000 < raw then raw / 100 else raw
    if r < 1000 then Except.error PyErr.valueError else Except.ok r

/-- MaterialXML.add_weight: normalize the raw id, then store the weight
under the normalized id. -/
def addWeight (ws : List (ℕ × ℚ)) (raw : ℕ) (w : ℚ) : Except PyErr (List (ℕ × ℚ)) := do
  let r ← normalizeUid raw
  pure (alistInsert ws r w)

/-- Fuel-driven decimal digit counter (fuel >= n suffices). -/
def numDigitsAux : ℕ → ℕ → ℕ
  | 0, _ => 0
  | fuel + 1, n => if n < 10 then 1 else numDigitsAux fuel (n / 10) + 1

/-- Number of decimal digits of a positive integer. -/
def numDigits (n : ℕ) : ℕ := numDigitsAux n n

/-- The claim's normalization rule, stated with decimal digit counts:
divide by 100 when the raw id has more than 4 digits, fail when the
normalized id has fewer than 3 digits.  This definition follows the
claim's words and exists only to be compared against normalizeUid. -/
def claimedNormalizeUid (raw : ℕ) : Except PyErr ℕ :=
  let r := if 4 < numDigits raw then raw / 100 else raw
  if numDigits r < 3 then Except.error PyErr.valueError else Except.ok r

theorem numDigitsAux_le_iff :
    ∀ (fuel n k : ℕ), 0 < n → n ≤ fuel → (numDigitsAux fuel n ≤ k ↔ n < 10 ^ k) := by
  intro fuel
  induction fuel with
  | zero => intro n k h1 h2; omega
  | succ fuel ih =>
      intro n k h1 h2
      rw [numDigitsAux]
      by_cases h10 : n < 10
      · rw [if_pos h10]
        constructor
        · intro hk
          calc n < 10 := h10
          _ = 10 ^ 1 := by norm_num
          _ ≤ 10 ^ k := Nat.pow_le_pow_right (by norm_num) hk
        · intro hnk
          match k with
          | 0 => simp at hnk; omega
          | k + 1 => omega
      · rw [if_neg h10]
        match k with
        | 0 => simp; omega
        | k + 1 =>
            have hd1 : 0 < n / 10 := Nat.div_pos (by omega) (by norm_num)
            have hd2 : n / 10 ≤ fuel := by
              have := Nat.div_lt_self (by omega : 0 < n) (by norm_num : 1 < 10)
              omega
            rw [Nat.add_le_add_iff_right, ih (n / 10) k hd1 hd2,
              Nat.div_lt_iff_lt_mul (by norm_num), ← pow_succ]

theorem numDigits_le_iff (n k : ℕ) (h : 0 < n) : numDigits n ≤ k ↔ n < 10 ^ k :=
  numDigitsAux_le_iff n n k h le_rfl

/-- C5 counterexample: at raw id 100 the claim's digit rule keeps the id
(3 digits, so no error), but the code raises: log10(100) = 2 < 3.  At raw
id 10000 the claim divides (5 digits > 4) and stores under 100, but the
code does not divide: log10(10000) = 4 is not > 4, and the id is stored
under 10000 itself. -/
theorem add_weight_digit_rule_refuted :
    claimedNormalizeUid 100 = Except.ok 100
    ∧ normalizeUid 100 = Except.error PyErr.valueError
    ∧ claimedNormalizeUid 10000 = Except.ok 100
    ∧ normalizeUid 10000 = Except.ok 10000 := by
  refine ⟨by rfl, by rfl, by rfl, by rfl⟩

/-- C5 (amended): for every positive raw id, the weight is stored under
raw // 100 exactly when raw > 10000 (at least 5 digits and not 10000
itself), under raw otherwise, and a validation error is raised exactly
when the normalized id has fewer than 4 decimal digits (is below 1000). -/
theorem add_weight_normalization (raw : ℕ) (hpos : 0 < raw)
    (ws : List (ℕ × ℚ)) (w : ℚ) :
    (addWeight ws raw w
        = Except.ok (alistInsert ws (if 10000 < raw then raw / 100 else raw) w)
      ↔ 4 ≤ numDigits (if 10000 < raw then raw / 100 else raw))
    ∧ (addWeight ws raw w = Except.error PyErr.valueError
      ↔ numDigits (if 10000 < raw then raw / 100 else raw) ≤ 3)
    ∧ (10000 < raw ↔ 5 ≤ numDigits raw ∧ raw ≠ 10000) := by
  have hrpos : 0 < (if 10000 < raw then raw / 100 else raw) := by
    split_ifs with h
    · exact Nat.div_pos (by omega) (by norm_num)
    · exact hpos
  have hdig : numDigits (if 10000 < raw then raw / 100 else raw) ≤ 3
      ↔ (if 10000 < raw then raw / 100 else raw) < 1000 := by
    simpa using numDigits_le_iff _ 3 hrpos
  have hdig4 : numDigits raw ≤ 4 ↔ raw < 10000 := by
    simpa using numDigits_le_iff raw 4 hpos
  have hrun : addWeight ws raw w
      = (if (if 10000 < raw then raw / 100 else raw) < 1000
          then Except.error PyErr.valueError
          else Except.ok (alistInsert ws (if 10000 < raw then raw / 100 else raw) w)) := by
    simp only [addWeight, normalizeUid, if_neg (by omega : ¬ raw = 0)]
    split_ifs <;> rfl
  refine ⟨?_, ?_, ?_⟩
  · rw [hrun]
    by_cases h : (if 10000 < raw then raw / 100 else raw) < 1000
    · rw [if_pos h]
      have hd3 : numDigits (if 10000 < raw then raw / 100 else raw) ≤ 3 := hdig.mpr h
      constructor
      · intro hc; cases hc
      · intro hc; omega
    · rw [if_neg h]
      have hd3 : ¬ numDigits (if 10000 < raw then raw / 100 else raw) ≤ 3 :=
        fun hc => h (hdig.mp hc)
      constructor
      · intro _; omega
      · intro _; rfl
  · rw [hrun]
    by_cases h : (if 10000 < raw then raw / 100 else raw) < 1000
    · rw [if_pos h]
      exact ⟨fun _ => hdig.mpr h, fun _ => rfl⟩
    · rw [if_neg h]
      have hd3 : ¬ numDigits (if 10000 < raw then raw / 100 else raw) ≤ 3 :=
        fun hc => h (hdig.mp hc)
      constructor
      · intro hc; cases hc
      · intro hc; omega
  · constructor
    · intro h
      have h4 : ¬ numDigits raw ≤ 4 := fun hc => by
        have := hdig4.mp hc; omega
      exact ⟨by omega, by omega⟩
    · rintro ⟨h5, hne⟩
      have h4 : ¬ raw < 10000 := fun hc => by
        have := hdig4.mpr hc; omega
      omega

/-- Witness for add_weight_normalization: the documented example
1102301 // 100 = 11023 is stored, and 999 is rejected. -/
theorem add_weight_normalization_witness :
    addWeight [] 1102301 2 = Except.ok [(11023, 2)]
    ∧ addWeight [] 999 2 = Except.error PyErr.valueError := by
  constructor
  · have h := (add_weight_normalization 1102301 (by norm_num) [] 2).1
    have h2 : (if 10000 < 1102301 then 1102301 / 100 else 1102301) = 11023 := by norm_num
    rw [h2] at h
    exact h.mpr (by decide)
  · have h := (add_weight_normalization 999 (by norm_num) [] 2).2.1
    have h2 : (if 10000 < 999 then 999 / 100 else 999) = 999 := by norm_num
    rw [h2] at h
    exact h.mpr (by decide)

/-! ## check_and_fix (materialxml.py)

check_and_fix saves the weights dict, replaces self.weights with a fresh
empty dict, re-adds every pair through add_weight, and on any exception
restores the saved dict (which the loop never mutated) before re-raising.
The model returns the final value of self.weights together with the
raised exception, if any.  Weight values are taken as already-parsed
rationals; the string fix-ups of _fix_float do not affect the id
normalization that can raise here. -/

/-- The re-adding loop of check_and_fix. -/
def checkAndFixGo : List (ℕ × ℚ) → List (ℕ × ℚ) → Except PyErr (List (ℕ × ℚ))
  | [], acc => Except.ok acc
  | (nid, w) :: rest, acc =>
      match addWeight acc nid w with
      | Except.ok acc2 => checkAndFixGo rest acc2
      | Except.error e => Except.error e

/-- check_and_fix on the weights map: the final weights map and the
exception that escaped, if any. -/
def checkAndFix (ws : List (ℕ × ℚ)) : List (ℕ × ℚ) × Option PyErr :=
  match checkAndFixGo ws [] with
  | Except.ok acc => (acc, none)
  | Except.error e => (ws, some e)

theorem normalizeUid_error_is_valueError (raw : ℕ) (e : PyErr)
    (h : normalizeUid raw = Except.error e) : e = PyErr.valueError := by
  simp only [normalizeUid] at h
  split_ifs at h <;> simp_all

theorem checkAndFixGo_error (ws : List (ℕ × ℚ)) :
    ∀ acc, (∃ p ∈ ws, ∃ e, normalizeUid p.1 = Except.error e) →
      checkAndFixGo ws acc = Except.error PyErr.valueError := by
  induction ws with
  | nil => intro acc h; simp at h
  | cons p rest ih =>
      intro acc hfail
      obtain ⟨nid, w⟩ := p
      cases haw : addWeight acc nid w with
      | error e =>
          have hn : normalizeUid nid = Except.error e := by
            unfold addWeight at haw
            cases hn0 : normalizeUid nid with
            | ok r => rw [hn0] at haw; simp [Bind.bind, Except.bind, Pure.pure, Except.pure] at haw
            | error e2 =>
                rw [hn0] at haw
                simp only [Bind.bind, Except.bind] at haw
                cases haw
                rfl
          have he : e = PyErr.valueError := normalizeUid_error_is_valueError nid e hn
          subst he
          simp [checkAndFixGo, haw]
      | ok acc2 =>
          have hok : ∃ r, normalizeUid nid = Except.ok r := by
            unfold addWeight at haw
            cases hn0 : normalizeUid nid with
            | ok r => exact ⟨r, rfl⟩
            | error e2 => rw [hn0] at haw; cases haw
          have hrest : ∃ p ∈ rest, ∃ e, normalizeUid p.1 = Except.error e := by
            obtain ⟨q, hq, e, hqe⟩ := hfail
            rcases List.mem_cons.mp hq with hq1 | hq2
            · exfalso
              obtain ⟨r, hr⟩ := hok
              rw [hq1] at hqe
              rw [hqe] at hr
              cases hr
            · exact ⟨q, hq2, e, hqe⟩
          simp [checkAndFixGo, haw, ih acc2 hrest]

/-- C10: check_and_fix is atomic on the weights map: if normalizing any
id-weight pair raises, the material's weights are restored to their exact
pre-call contents and the ValueError escapes, even when earlier pairs had
already been normalized successfully. -/
theorem check_and_fix_atomic (ws : List (ℕ × ℚ))
    (hfail : ∃ p ∈ ws, ∃ e, normalizeUid p.1 = Except.error e) :
    checkAndFix ws = (ws, some PyErr.valueError) := by
  unfold checkAndFix
  rw [checkAndFixGo_error ws [] hfail]

/-- Witness for check_and_fix_atomic: the first pair normalizes fine, the
second is invalid, and the whole map comes back untouched. -/
theorem check_and_fix_atomic_witness :
    checkAndFix [(11023, 1), (999, 2)] = ([(11023, 1), (999, 2)], some PyErr.valueError) :=
  check_and_fix_atomic [(11023, 1), (999, 2)]
    ⟨(999, 2), by simp, PyErr.valueError, rfl⟩

/-! ## Nuclide and NuclideSet (type_a/nuclides.py) -/

/-- One isotope with its cross-section dict. -/
structure Nuclide where
  name : String
  number : ℕ
  mass : ℕ
  ngroups : ℕ
  data : List (String × List ℚ)
deriving DecidableEq, Repr

/-- Nuclide.uid(): number*1000 + mass. -/
def Nuclide.uid (nc : Nuclide) : ℕ := nc.number * 1000 + nc.mass

/-- Nuclide.__getitem__, including the lazy nu-fission derivation: an
absent 'nu-fission' is computed as nu * fission (elementwise; reading 'nu'
first, then 'fission', each raising KeyError when absent; a length
mismatch is a numpy broadcast ValueError) and stored back into the dict.
The result pairs the returned array with the possibly-extended nuclide. -/
def nuclideGet (nc : Nuclide) (xsname : String) : Except PyErr (List ℚ × Nuclide) :=
  match alistFind? nc.data xsname with
  | some arr => Except.ok (arr, nc)
  | none =>
      if xsname = "nu-fission" then
        match alistFind? nc.data "nu" with
        | none => Except.error PyErr.keyError
        | some nu =>
            match alistFind? nc.data "fission" with
            | none => Except.error PyErr.keyError
            | some fis =>
                if nu.length = fis.length then
                  Except.ok (List.zipWith (fun x y => x * y) nu fis,
                    ⟨nc.name, nc.number, nc.mass, nc.ngroups,
                     alistInsert nc.data "nu-fission"
                       (List.zipWith (fun x y => x * y) nu fis)⟩)
                else Except.error PyErr.valueError
      else Except.error PyErr.keyError

/-- The value part of Nuclide.__getitem__. -/
def nuclideGetValue (nc : Nuclide) (xsname : String) : Except PyErr (List ℚ) :=
  (nuclideGet nc xsname).map Prod.fst

/-- C9: looking up an absent name other than 'nu-fission' raises KeyError;
an absent 'nu-fission' is derived as the elementwise product nu * fission
and cached back into the dict; the derivation raises KeyError when 'nu' or
'fission' is absent. -/
theorem nuclide_getitem_spec (nc : Nuclide) :
    (∀ xsname, xsname ≠ "nu-fission" → alistFind? nc.data xsname = none →
        nuclideGet nc xsname = Except.error PyErr.keyError)
    ∧ (∀ nu fis, alistFind? nc.data "nu-fission" = none →
        alistFind? nc.data "nu" = some nu →
        alistFind? nc.data "fission" = some fis →
        nu.length = fis.length →
        nuclideGet nc "nu-fission"
          = Except.ok (List.zipWith (fun x y => x * y) nu fis,
              ⟨nc.name, nc.number, nc.mass, nc.ngroups,
               alistInsert nc.data "nu-fission"
                 (List.zipWith (fun x y => x * y) nu fis)⟩)
        ∧ ∀ nc2, nuclideGet nc "nu-fission" = Except.ok
            (List.zipWith (fun x y => x * y) nu fis, nc2) →
          alistFind? nc2.data "nu-fission"
            = some (List.zipWith (fun x y => x * y) nu fis))
    ∧ (alistFind? nc.data "nu-fission" = none → alistFind? nc.data "nu" = none →
        nuclideGet nc "nu-fission" = Except.error PyErr.keyError)
    ∧ (∀ nu, alistFind? nc.data "nu-fission" = none →
        alistFind? nc.data "nu" = some nu → alistFind? nc.data "fission" = none →
        nuclideGet nc "nu-fission" = Except.error PyErr.keyError) := by
  refine ⟨?_, ?_, ?_, ?_⟩
  · intro xsname hne habs
    simp [nuclideGet, habs, hne]
  · intro nu fis habs hnu hfis hlen
    constructor
    · simp [nuclideGet, habs, hnu, hfis, hlen]
    · intro nc2 h2
      rw [nuclideGet, habs] at h2
      simp only [hnu, hfis, hlen, if_pos, reduceIte] at h2
      have := (Except.ok.inj h2)
      have hnc2 : nc2 = ⟨nc.name, nc.number, nc.mass, nc.ngroups,
          alistInsert nc.data "nu-fission" (List.zipWith (fun x y => x * y) nu fis)⟩ :=
        congrArg Prod.snd this |>.symm
      rw [hnc2]
      exact alistFind?_insert_self nc.data "nu-fission" _
  · intro habs hnu
    simp [nuclideGet, habs, hnu]
  · intro nu habs hnu hfis
    simp [nuclideGet, habs, hnu, hfis]

/-- Witness nuclide with nu and fission only. -/
def nuclideC9 : Nuclide :=
  ⟨"U", 92, 235, 2, [("nu", [2, 3]), ("fission", [5, 7])]⟩

/-- Witness nuclide missing fission. -/
def nuclideC9b : Nuclide :=
  ⟨"PU", 94, 239, 2, [("nu", [2, 3])]⟩

/-- Witness for nuclide_getitem_spec: an absent 'transport' raises
KeyError; 'nu-fission' on nuclideC9 yields [10, 21] and caches it; on
nuclideC9b (no 'fission') it raises KeyError. -/
theorem nuclide_getitem_spec_witness :
    nuclideGet nuclideC9 "transport" = Except.error PyErr.keyError
    ∧ nuclideGetValue nuclideC9 "nu-fission" = Except.ok [10, 21]
    ∧ nuclideGet nuclideC9b "nu-fission" = Except.error PyErr.keyError := by
  refine ⟨?_, ?_, ?_⟩
  · exact (nuclide_getitem_spec nuclideC9).1 "transport" (by decide) (by rfl)
  · have h := ((nuclide_getitem_spec nuclideC9).2.1 [2, 3] [5, 7]
      (by rfl) (by rfl) (by rfl) (by rfl)).1
    rw [nuclideGetValue, h]
    simp [Except.map, List.zipWith]
    norm_num
  · exact (nuclide_getitem_spec nuclideC9b).2.2.2 [2, 3] (by rfl) (by rfl) (by rfl)

/-! ## Material synthesis (type_a/material.py) -/

/-- A collection of nuclides sharing one chi array.  uid and nnuclides
are Python ints (nnuclides can go negative through the parser's
truncation arithmetic); ngroups is kept as a natural number, which the
parser guarantees to be at least 1. -/
structure NuclideSet where
  uid : ℤ
  nnuclides : ℤ
  ngroups : ℕ
  chi : List ℚ
  nuclides : List (ℕ × Nuclide)
deriving DecidableEq, Repr

/-- MaterialTypeA.xslist (no 'total'). -/
def xslistA : List String :=
  ["absorption", "fission", "transport", "nu-fission", "chi", "scatter matrix"]

/-- Length of a freshly zeroed array: ngroups^2 for the scatter matrix,
ngroups otherwise. -/
def xsLen (n : ℕ) (y : String) : ℕ := if scatterInName y then n * n else n

/-- The array-reset loop of compute_xs: np.zeros for every name of
xslistA. -/
def initXsData (n : ℕ) : List (String × List ℚ) :=
  xslistA.foldl (fun d xsname => alistInsert d xsname (List.replicate (xsLen n xsname) 0)) []

/-- One accumulation self[xsname] += nuclide[xsname] * weight of
compute_xs; 'chi' is skipped.  The nuclide lookup goes through
Nuclide.__getitem__ (so 'nu-fission' may be derived; the model reads the
value and leaves the caching mutation aside, which no later value
depends on).  A length mismatch is a numpy broadcast ValueError. -/
def accumName (data : List (String × List ℚ)) (nc : Nuclide) (w : ℚ) (xsname : String) :
    Except PyErr (List (String × List ℚ)) :=
  if xsname = "chi" then Except.ok data
  else do
    let arr ← nuclideGetValue nc xsname
    match alistFind? data xsname with
    | none => Except.error PyErr.keyError
    | some cur =>
        if cur.length = arr.length then
          Except.ok (alistInsert data xsname (List.zipWith (fun x y => x + y * w) cur arr))
        else Except.error PyErr.valueError

/-- The inner name loop of compute_xs. -/
def accumAll (data : List (String × List ℚ)) (nc : Nuclide) (w : ℚ) :
    Except PyErr (List (String × List ℚ)) :=
  xslistA.foldlM (fun d y => accumName d nc w y) data

/-- The weight loop of compute_xs: skip zero weights, fail on an id
absent from the set, otherwise accumulate every non-chi array. -/
def computeXsLoop (nset : NuclideSet) :
    List (ℕ × ℚ) → List (String × List ℚ) → Except PyErr (List (String × List ℚ))
  | [], data => Except.ok data
  | (nid, w) :: rest, data =>
      if w = 0 then computeXsLoop nset rest data
      else
        match alistFind? nset.nuclides nid with
        | none => Except.error PyErr.valueError
        | some nc => do
            let d2 ← accumAll data nc w
            computeXsLoop nset rest d2

/-- MaterialTypeA.compute_xs: reset all arrays to zeros, accumulate the
weighted nuclide arrays, then assign chi verbatim from the set. -/
def computeXs (weights : List (ℕ × ℚ)) (nset : NuclideSet) :
    Except PyErr (List (String × List ℚ)) := do
  let d ← computeXsLoop nset weights (initXsData nset.ngroups)
  pure (alistInsert d "chi" nset.chi)

theorem getD_zipWith_addmul (w : ℚ) (cur arr : List ℚ) (hlen : cur.length = arr.length)
    (g : ℕ) :
    (List.zipWith (fun x y => x + y * w) cur arr).getD g 0
      = cur.getD g 0 + (arr.getD g 0) * w := by
  by_cases hg : g < cur.length
  · obtain ⟨vc, hvc⟩ : ∃ v, cur[g]? = some v := ⟨_, List.getElem?_eq_getElem hg⟩
    obtain ⟨va, hva⟩ : ∃ v, arr[g]? = some v := ⟨_, List.getElem?_eq_getElem (by omega)⟩
    simp [List.getD_eq_getD_get?, List.getElem?_zipWith', hvc, hva]
  · have hc : cur[g]? = none := List.getElem?_eq_none (by omega)
    have ha : arr[g]? = none := List.getElem?_eq_none (by omega)
    simp [List.getD_eq_getD_get?, List.getElem?_zipWith', hc, ha]

theorem getD_replicate_zero (k g : ℕ) : (List.replicate k (0 : ℚ)).getD g 0 = 0 := by
  by_cases h : g < k <;> simp [List.getD_eq_getD_get?, List.getElem?_replicate, h]

theorem initXsData_eq (n : ℕ) : initXsData n =
    [("absorption", List.replicate n 0), ("fission", List.replicate n 0),
     ("transport", List.replicate n 0), ("nu-fission", List.replicate n 0),
     ("chi", List.replicate n 0), ("scatter matrix", List.replicate (n * n) 0)] := by
  rfl

/-- The name loop over any duplicate-free name list: every non-chi name
of the list is accumulated once, everything else (chi included) is left
alone. -/
theorem accumNames_spec (nc : Nuclide) (w : ℚ) (arrF curF : String → List ℚ) :
    ∀ (names : List String) (data : List (String × List ℚ)),
      names.Nodup →
      (∀ y ∈ names, y ≠ "chi" →
        nuclideGetValue nc y = Except.ok (arrF y)
        ∧ alistFind? data y = some (curF y)
        ∧ (curF y).length = (arrF y).length) →
      ∃ d2, List.foldlM (fun d y => accumName d nc w y) data names = Except.ok d2
        ∧ (∀ y ∈ names, y ≠ "chi" →
            alistFind? d2 y = some (List.zipWith (fun x z => x + z * w) (curF y) (arrF y)))
        ∧ (∀ y, y ∉ names → alistFind? d2 y = alistFind? data y)
        ∧ alistFind? d2 "chi" = alistFind? data "chi" := by
  intro names
  induction names with
  | nil =>
      intro data _ _
      exact ⟨data, rfl, by simp, fun y _ => rfl, rfl⟩
  | cons x rest ih =>
      intro data hnodup hfacts
      by_cases hx : x = "chi"
      · subst hx
        have hstep : accumName data nc w "chi" = Except.ok data := by
          simp [accumName]
        obtain ⟨d2, hrun, hacc, hout, hchi⟩ :=
          ih data (List.nodup_cons.mp hnodup).2
            (fun y hy hne => hfacts y (List.mem_cons_of_mem _ hy) hne)
        refine ⟨d2, ?_, ?_, ?_, hchi⟩
        · simpa [List.foldlM, hstep] using hrun
        · intro y hy hne
          rcases List.mem_cons.mp hy with h1 | h2
          · exact absurd h1 hne
          · exact hacc y h2 hne
        · intro y hy
          exact hout y (fun hc => hy (List.mem_cons_of_mem _ hc))
      · have hxnotin : x ∉ rest := (List.nodup_cons.mp hnodup).1
        obtain ⟨hv, hfind, hlen⟩ := hfacts x (List.mem_cons_self x rest) hx
        have hstep : accumName data nc w x
            = Except.ok (alistInsert data x
                (List.zipWith (fun a z => a + z * w) (curF x) (arrF x))) := by
          simp [accumName, hx, hv, hfind, hlen, Bind.bind, Except.bind, Pure.pure,
            Except.pure]
        obtain ⟨d2, hrun, hacc, hout, hchi⟩ :=
          ih (alistInsert data x (List.zipWith (fun a z => a + z * w) (curF x) (arrF x)))
            (List.nodup_cons.mp hnodup).2
            (by
              intro y hy hne
              have hyx : y ≠ x := fun hc => hxnotin (hc ▸ hy)
              obtain ⟨hv2, hfind2, hlen2⟩ :=
                hfacts y (List.mem_cons_of_mem _ hy) hne
              refine ⟨hv2, ?_, hlen2⟩
              rw [alistFind?_insert_ne _ _ _ _ (fun hc => hyx hc.symm)]
              exact hfind2)
        refine ⟨d2, ?_, ?_, ?_, ?_⟩
        · simpa [List.foldlM, hstep] using hrun
        · intro y hy hne
          rcases List.mem_cons.mp hy with h1 | h2
          · subst h1
            rw [hout y hxnotin]
            exact alistFind?_insert_self data y _
          · exact hacc y h2 hne
        · intro y hy
          have hyx : y ≠ x := fun hc => hy (hc ▸ List.mem_cons_self x rest)
          rw [hout y (fun hc => hy (List.mem_cons_of_mem _ hc))]
          exact alistFind?_insert_ne _ _ _ _ (fun hc => hyx hc.symm)
        · rw [hchi]
          exact alistFind?_insert_ne _ _ _ _ (fun hc => hx hc)

/-- The weight loop: starting from any data whose non-chi xslistA entries
are curF, the loop succeeds and each entry ends at curF plus the weighted
sum of the nuclide arrays; chi and everything outside xslistA are
untouched. -/
theorem computeXsLoop_spec (nset : NuclideSet) (val : ℕ → String → List ℚ) (n : ℕ) :
    ∀ (ws : List (ℕ × ℚ)) (data : List (String × List ℚ)) (curF : String → List ℚ),
      (∀ p ∈ ws, ∃ nc, alistFind? nset.nuclides p.1 = some nc
          ∧ ∀ y ∈ xslistA, y ≠ "chi" →
              nuclideGetValue nc y = Except.ok (val p.1 y)
              ∧ (val p.1 y).length = xsLen n y) →
      (∀ y ∈ xslistA, y ≠ "chi" →
          alistFind? data y = some (curF y) ∧ (curF y).length = xsLen n y) →
      ∃ d, computeXsLoop nset ws data = Except.ok d
        ∧ (∀ y ∈ xslistA, y ≠ "chi" → ∃ res, alistFind? d y = some res
            ∧ res.length = xsLen n y
            ∧ ∀ g, res.getD g 0 = (curF y).getD g 0
                + (ws.map (fun p => p.2 * (val p.1 y).getD g 0)).sum)
        ∧ alistFind? d "chi" = alistFind? data "chi" := by
  intro ws
  induction ws with
  | nil =>
      intro data curF _ hdata
      refine ⟨data, rfl, ?_, rfl⟩
      intro y hy hne
      obtain ⟨hfind, hlen⟩ := hdata y hy hne
      exact ⟨curF y, hfind, hlen, by simp⟩
  | cons p rest ih =>
      intro data curF hval hdata
      obtain ⟨nid, w⟩ := p
      by_cases hw : w = 0
      · subst hw
        obtain ⟨d, hrun, hacc, hchi⟩ :=
          ih data curF (fun q hq => hval q (List.mem_cons_of_mem _ hq)) hdata
        refine ⟨d, by simpa [computeXsLoop] using hrun, ?_, hchi⟩
        intro y hy hne
        obtain ⟨res, h1, h2, h3⟩ := hacc y hy hne
        exact ⟨res, h1, h2, fun g => by rw [h3 g]; simp⟩
      · obtain ⟨nc, hnc, hncv⟩ := hval (nid, w) (List.mem_cons_self _ _)
        obtain ⟨d2, hrun2, hacc2, hout2, hchi2⟩ :=
          accumNames_spec nc w (fun y => val nid y) curF xslistA data (by decide)
            (fun y hy hne =>
              ⟨(hncv y hy hne).1, (hdata y hy hne).1, by
                rw [(hdata y hy hne).2, (hncv y hy hne).2]⟩)
        obtain ⟨d, hrun, hacc, hchi⟩ :=
          ih d2 (fun y => List.zipWith (fun a z => a + z * w) (curF y) (val nid y))
            (fun q hq => hval q (List.mem_cons_of_mem _ hq))
            (by
              intro y hy hne
              refine ⟨hacc2 y hy hne, ?_⟩
              rw [List.length_zipWith, (hdata y hy hne).2, (hncv y hy hne).2,
                min_self])
        refine ⟨d, ?_, ?_, by rw [hchi, hchi2]⟩
        · simp only [computeXsLoop, if_neg hw, hnc]
          simp [accumAll, hrun2, hrun, Bind.bind, Except.bind]
        · intro y hy hne
          obtain ⟨res, h1, h2, h3⟩ := hacc y hy hne
          refine ⟨res, h1, h2, ?_⟩
          intro g
          rw [h3 g, getD_zipWith_addmul w (curF y) (val nid y)
            (by rw [(hdata y hy hne).2, (hncv y hy hne).2])]
          simp only [List.map_cons, List.sum_cons]
          ring

/-- C3: after synthesis, every non-chi array of the material equals the
weighted sum of the nuclide arrays over the weight-map entries, position
by position (vector and flattened scatter entries alike), and chi equals
the set's chi verbatim. -/
theorem compute_xs_weighted_sum (weights : List (ℕ × ℚ)) (nset : NuclideSet)
    (val : ℕ → String → List ℚ)
    (hval : ∀ p ∈ weights, ∃ nc, alistFind? nset.nuclides p.1 = some nc
        ∧ ∀ y ∈ xslistA, y ≠ "chi" →
            nuclideGetValue nc y = Except.ok (val p.1 y)
            ∧ (val p.1 y).length = xsLen nset.ngroups y) :
    ∃ d, computeXs weights nset = Except.ok d
      ∧ alistFind? d "chi" = some nset.chi
      ∧ ∀ y ∈ xslistA, y ≠ "chi" → ∃ res, alistFind? d y = some res
          ∧ res.length = xsLen nset.ngroups y
          ∧ ∀ g, res.getD g 0
              = (weights.map (fun p => p.2 * (val p.1 y).getD g 0)).sum := by
  obtain ⟨d, hrun, hacc, hchi⟩ :=
    computeXsLoop_spec nset val nset.ngroups weights (initXsData nset.ngroups)
      (fun y => List.replicate (xsLen nset.ngroups y) 0) hval
      (by
        intro y hy hne
        fin_cases hy
        · exact ⟨by simp [initXsData_eq, alistFind?, xsLen, scatterInName_absorption],
            by simp⟩
        · exact ⟨by simp [initXsData_eq, alistFind?, xsLen, scatterInName_fission],
            by simp⟩
        · exact ⟨by simp [initXsData_eq, alistFind?, xsLen, scatterInName_transport],
            by simp⟩
        · exact ⟨by simp [initXsData_eq, alistFind?, xsLen, scatterInName_nufission],
            by simp⟩
        · exact absurd rfl hne
        · exact ⟨by simp [initXsData_eq, alistFind?, xsLen, scatterInName_scatter],
            by simp⟩)
  refine ⟨alistInsert d "chi" nset.chi, ?_, ?_, ?_⟩
  · simp [computeXs, hrun, Bind.bind, Except.bind, Pure.pure, Except.pure]
  · exact alistFind?_insert_self d "chi" nset.chi
  · intro y hy hne
    obtain ⟨res, h1, h2, h3⟩ := hacc y hy hne
    refine ⟨res, ?_, h2, ?_⟩
    · rw [alistFind?_insert_ne d "chi" y nset.chi (fun hc => hne hc.symm)]
      exact h1
    · intro g
      rw [h3 g, getD_replicate_zero]
      simp

/-- A sodium nuclide for the synthesis witness. -/
def nuclideA3 : Nuclide :=
  ⟨"SODIUM", 11, 23, 1,
    [("absorption", [1/2]), ("fission", [1/2]), ("transport", [1/2]),
     ("nu-fission", [1/2]), ("scatter matrix", [5])]⟩

/-- A silicon nuclide for the synthesis witness. -/
def nuclideB3 : Nuclide :=
  ⟨"SILICON", 14, 28, 1,
    [("absorption", [3/10]), ("fission", [7/10]), ("transport", [9/10]),
     ("nu-fission", [11/10]), ("scatter matrix", [7])]⟩

/-- A one-group set holding the two witness nuclides. -/
def nsetC3 : NuclideSet :=
  ⟨1, 2, 1, [4/10], [(11023, nuclideA3), (14028, nuclideB3)]⟩

/-- Weights A -> 0, B -> 1: the zero-weight nuclide must not contribute. -/
def weightsC3 : List (ℕ × ℚ) := [(11023, 0), (14028, 1)]

/-- The per-nuclide array table of the witness set. -/
def valC3 : ℕ → String → List ℚ := fun nid y =>
  if nid = 11023 then (if y = "scatter matrix" then [5] else [1/2])
  else if y = "scatter matrix" then [7]
  else if y = "absorption" then [3/10]
  else if y = "fission" then [7/10]
  else if y = "transport" then [9/10]
  else [11/10]

/-- Witness for compute_xs_weighted_sum: with weights A -> 0 and B -> 1
the synthesized arrays equal nuclide B's arrays unweighted, and chi is the
set's chi. -/
theorem compute_xs_weighted_sum_witness :
    ∃ d, computeXs weightsC3 nsetC3 = Except.ok d
      ∧ alistFind? d "chi" = some [4/10]
      ∧ (∃ res, alistFind? d "absorption" = some res ∧ res.getD 0 0 = 3/10)
      ∧ (∃ rs, alistFind? d "scatter matrix" = some rs ∧ rs.getD 0 0 = 7) := by
  obtain ⟨d, h1, h2, h3⟩ :=
    compute_xs_weighted_sum weightsC3 nsetC3 valC3 (by
      intro p hp
      fin_cases hp
      · refine ⟨nuclideA3, rfl, ?_⟩
        intro y hy hne
        fin_cases hy
        · exact ⟨rfl, rfl⟩
        · exact ⟨rfl, rfl⟩
        · exact ⟨rfl, rfl⟩
        · exact ⟨rfl, rfl⟩
        · exact absurd rfl hne
        · exact ⟨rfl, rfl⟩
      · refine ⟨nuclideB3, rfl, ?_⟩
        intro y hy hne
        fin_cases hy
        · exact ⟨rfl, rfl⟩
        · exact ⟨rfl, rfl⟩
        · exact ⟨rfl, rfl⟩
        · exact ⟨rfl, rfl⟩
        · exact absurd rfl hne
        · exact ⟨rfl, rfl⟩)
  refine ⟨d, h1, ?_, ?_, ?_⟩
  · simpa [nsetC3] using h2
  · obtain ⟨res, hr1, hr2, hr3⟩ := h3 "absorption" (by simp [xslistA]) (by decide)
    refine ⟨res, hr1, ?_⟩
    rw [hr3 0]
    norm_num [weightsC3, valC3]
    simp
  · obtain ⟨rs, hr1, hr2, hr3⟩ := h3 "scatter matrix" (by simp [xslistA]) (by decide)
    refine ⟨rs, hr1, ?_⟩
    rw [hr3 0]
    norm_num [weightsC3, valC3]

/-! ## infilecross parsing (type_a/infilecross.py)

The two nuclide-name regex patterns and the set-id patterns are
translated operationally; the translation of each regex is justified in
the doc comment of the corresponding definition. -/

/-- Modelled from the spec: the default element table elements.json of
the package is not among the sources under study.  The spec describes it
as a table from element name (uppercase) to atomic number, and its worked
example resolves SODIUM-23 to uid 11023 and SILICON-28 to uid 14028; the
doctests add CHROMIUM, OXYGEN, U and PU.  Only the atomic number (entry 0
of each json value) is ever read. -/
def defaultElementMap : List (String × ℕ) :=
  [("SODIUM", 11), ("SILICON", 14), ("OXYGEN", 8), ("CHROMIUM", 24),
   ("U", 92), ("PU", 94)]

/-- ASCII letter (either case), as matched by [a-z] under re.I. -/
def isAsciiLetter (c : Char) : Bool :=
  ('a' ≤ c && c ≤ 'z') || ('A' ≤ c && c ≤ 'Z')

/-- str.upper() on one ASCII character. -/
def charUpper (c : Char) : Char :=
  if 'a' ≤ c ∧ c ≤ 'z' then Char.ofNat (c.toNat - 32) else c

/-- str.upper() (ASCII data only in these files). -/
def strUpper (s : String) : String :=
  String.mk (s.toList.map charUpper)

/-- The space-or-tab class [ \t] of the regexes. -/
def isSpaceTab (c : Char) : Bool := c = ' ' || c = '\t'

/-- parse_nuclide_name: re.match of
[^a-z\.]*([a-z]+)-([0-9]+) and then [^a-z\.]*([a-z]+)([0-9]+)[^0-9]*,
both case-insensitive and unanchored at the right.  [^a-z\.]* can only
consume characters that are neither letters nor dots, so both patterns
match exactly when the first letter-or-dot character of the line is a
letter; the group is the maximal letter run from there, followed either
by a hyphen and digits (pattern 1) or directly by digits (pattern 2).
The name is uppercased and resolved against the element map (KeyError
when absent); no pattern match is a ValueError. -/
def parseNuclideName (emap : List (String × ℕ)) (s : String) :
    Except PyErr (String × ℕ × ℕ) :=
  let cs1 := s.toList.dropWhile (fun c => !(isAsciiLetter c || c = '.'))
  let letters := cs1.takeWhile isAsciiLetter
  let rest := cs1.dropWhile isAsciiLetter
  if letters = [] then Except.error PyErr.valueError
  else
    let ds :=
      match rest with
      | '-' :: rest2 => (takeDigits rest2).1
      | _ => (takeDigits rest).1
    if ds = [] then Except.error PyErr.valueError
    else
      let name := strUpper (String.mk letters)
      match alistFind? emap name with
      | none => Except.error PyErr.keyError
      | some number => Except.ok (name, number, digitsToNat ds)

/-- Whether the char list ends with "SET" (case-insensitive). -/
def endsWithSET (cs : List Char) : Bool :=
  match cs.reverse with
  | t :: e :: s :: _ => charUpper s = 'S' && charUpper e = 'E' && charUpper t = 'T'
  | _ => false

/-- Whether a dollar sign occurs among the first j characters. -/
def dollarBefore (cs : List Char) (j : ℕ) : Bool :=
  (cs.take j).any (fun c => c = '$')

/-- parse_nuclideset_id: re.search of [ \t]*\$.*SET([0-9]+)[ \t]*$ and
then [ \t]*\$.*([0-9]+)SET[ \t]*$, case-insensitive.  After stripping the
trailing spaces and tabs: pattern 1 matches when the line ends with a
non-empty digit run preceded by SET, with a dollar before that SET (the
greedy .* makes the group the full trailing digit run); pattern 2 matches
when the line ends with SET whose preceding character is a digit, with a
dollar before that digit (the greedy .* leaves exactly one digit in the
group).  No match is a ValueError. -/
def parseNuclidesetId (s : String) : Except PyErr ℕ :=
  let stripped := (s.toList.reverse.dropWhile isSpaceTab).reverse
  let dsRev := stripped.reverse.takeWhile (fun c => c.isDigit)
  let before := (stripped.reverse.dropWhile (fun c => c.isDigit)).reverse
  if dsRev ≠ [] ∧ endsWithSET before ∧ dollarBefore stripped (before.length - 3) then
    Except.ok (digitsToNat dsRev.reverse)
  else
    if endsWithSET stripped then
      let rest := stripped.take (stripped.length - 3)
      match rest.getLast? with
      | some d =>
          if d.isDigit ∧ dollarBefore stripped (rest.length - 1) then
            Except.ok (d.toNat - 48)
          else Except.error PyErr.valueError
      | none => Except.error PyErr.valueError
    else Except.error PyErr.valueError

/-- parse_count_nuclides_groups: at least 6 whole numbers; entries 1 and
2 are (nnuclides, ngroups), both required to be at least 1. -/
def parseCounts (s : String) : Except PyErr (ℤ × ℤ) := do
  let arr ← parseInts (splitWS s)
  if arr.length < 6 then Except.error PyErr.valueError
  else if arr.getD 1 0 < 1 ∨ arr.getD 2 0 < 1 then Except.error PyErr.valueError
  else pure (arr.getD 1 0, arr.getD 2 0)

/-- parse_chi: every word parsed as a float; an empty list fails. -/
def parseChi (s : String) : Except PyErr (List ℚ) := do
  let chi ← parseFloats (splitWS s)
  if chi.length = 0 then Except.error PyErr.valueError else pure chi

/-- The default column index map of parse_xs_arrays. -/
def defaultParseXsIndices : List (String × ℕ) :=
  [("absorption", 0), ("fission", 1), ("transport", 2), ("nu", 3)]

/-- One row's appends: xs_data[name].append(array[idx]) for each mapped
name. -/
def appendRowEntries (xsi : List (String × ℕ)) (arr : List ℚ)
    (acc : List (String × List ℚ)) : List (String × List ℚ) :=
  xsi.foldl (fun d p =>
    alistInsert d p.1 ((alistFind? d p.1).getD [] ++ [arr.getD p.2 0])) acc

/-- The row loop of parse_xs_arrays: each row is split into floats (a bad
word is a ValueError), must reach the highest mapped column, and one entry
per mapped name is appended. -/
def parseXsRows (xsi : List (String × ℕ)) (nreq : ℕ) :
    List String → List (String × List ℚ) → Except PyErr (List (String × List ℚ))
  | [], acc => Except.ok acc
  | s :: rest, acc => do
      let arr ← parseFloats (splitWS s)
      if arr.length < nreq then Except.error PyErr.valueError
      else parseXsRows xsi nreq rest (appendRowEntries xsi arr acc)

/-- parse_xs_arrays: an empty index map falls back to the default map;
returns one array per mapped name, in columnar order. -/
def parseXsArrays (strings : List String) (xsi : List (String × ℕ)) :
    Except PyErr (List (String × List ℚ)) :=
  let xsi := if xsi = [] then defaultParseXsIndices else xsi
  let nreq := (xsi.map Prod.snd).foldl max 0 + 1
  parseXsRows xsi nreq strings (xsi.foldl (fun d p => alistInsert d p.1 []) [])

/-- The row loop of parse_scatter_matrix: every row must split into
exactly the same number of floats as the first row. -/
def parseScatterRows (ngl : ℕ) : List String → Except PyErr (List ℚ)
  | [] => Except.ok []
  | s :: rest => do
      let arr ← parseFloats (splitWS s)
      if arr.length ≠ ngl then Except.error PyErr.valueError
      else do
        let more ← parseScatterRows ngl rest
        pure (arr ++ more)

/-- parse_scatter_matrix: the row width is the word count of the first
row (IndexError on an empty slice); rows are flattened row-major. -/
def parseScatterMatrix (strings : List String) : Except PyErr (List ℚ) := do
  let first ← pyIndex strings 0
  parseScatterRows (splitWS first).length strings

/-- The 1-based line marks of one nuclide record. -/
structure NuclideMarks where
  header : ℤ
  xs : ℤ
deriving DecidableEq, Repr

def defaultNuclideMarks : NuclideMarks := ⟨1, 12⟩

/-- _parse_nuclide: header at mark 'header', ngroups xs rows from mark
'xs', then ngroups scatter rows. -/
def parseNuclide (emap : List (String × ℕ)) (strings : List String) (ngroups : ℕ)
    (nm : NuclideMarks) (xsi : List (String × ℕ)) : Except PyErr Nuclide :=
  if nm.header < 1 ∨ nm.xs < 1 then Except.error PyErr.valueError
  else do
    let headerLine ← pyIndex strings (nm.header - 1).toNat
    let (name, number, mass) ← parseNuclideName emap headerLine
    let xsIdx : ℤ := nm.xs - 1
    let xsData ← parseXsArrays (pySlice strings xsIdx (xsIdx + ngroups)) xsi
    let scat ← parseScatterMatrix
      (pySlice strings (xsIdx + ngroups) (xsIdx + 2 * ngroups))
    pure ⟨name, number, mass, ngroups, alistInsert xsData "scatter matrix" scat⟩

/-- The 1-based line marks of one set-section. -/
structure SetMarks where
  header : ℤ
  counts : ℤ
  chi : ℤ
  nuclides : ℤ
deriving DecidableEq, Repr

def defaultSetMarks : SetMarks := ⟨1, 2, 3, 9⟩

def SetMarks.minVal (m : SetMarks) : ℤ :=
  min (min m.header m.counts) (min m.chi m.nuclides)

def SetMarks.maxVal (m : SetMarks) : ℤ :=
  max (max m.header m.counts) (max m.chi m.nuclides)

/-- Header stage of parse_nuclideset. -/
def readHeaderId (strings : List String) (sm : SetMarks) : Except PyErr ℕ := do
  let l ← pyIndexInt strings (sm.header - 1)
  parseNuclidesetId l

/-- Counts stage of parse_nuclideset. -/
def readCounts (strings : List String) (sm : SetMarks) : Except PyErr (ℤ × ℤ) := do
  let l ← pyIndexInt strings (sm.counts - 1)
  parseCounts l

/-- Chi stage of parse_nuclideset. -/
def readChi (strings : List String) (sm : SetMarks) : Except PyErr (List ℚ) := do
  let l ← pyIndexInt strings (sm.chi - 1)
  parseChi l

/-- The record-length inference loop of parse_nuclideset: starting right
after the first nuclide line, try each line as a nuclide header; a
ValueError (no pattern) skips the line (possibly with a stray-comment
warning), any other exception (such as a KeyError for an unknown element)
is re-raised, a success stops the scan. -/
def inferEndAux (emap : List (String × ℕ)) (strings : List String) :
    ℕ → ℕ → Except PyErr ℕ
  | endIdx, 0 => Except.ok endIdx
  | endIdx, fuel + 1 =>
      if h : endIdx < strings.length then
        match parseNuclideName emap (strings.get ⟨endIdx, h⟩) with
        | Except.ok _ => Except.ok endIdx
        | Except.error PyErr.valueError => inferEndAux emap strings (endIdx + 1) fuel
        | Except.error e => Except.error e
      else Except.ok endIdx

/-- The inference loop followed by the end-of-input adjustment
(end_idx -= 1 when the scan ran off the end). -/
def inferEnd (emap : List (String × ℕ)) (strings : List String) (startIdx : ℕ) :
    Except PyErr ℕ := do
  let e ← inferEndAux emap strings (startIdx + 1) (strings.length + 1)
  pure (if e = strings.length then e - 1 else e)

/-- The nuclide loop of parse_nuclideset: k records remain, the next has
index i; records are keyed by uid, a later duplicate overwriting an
earlier one. -/
def parseNuclidesLoop (emap : List (String × ℕ)) (strings : List String)
    (nuclidesMark : ℤ) (nm : NuclideMarks) (xsi : List (String × ℕ))
    (ng : ℕ) (rows : ℕ) :
    ℕ → ℕ → List (ℕ × Nuclide) → Except PyErr (List (ℕ × Nuclide))
  | _, 0, acc => Except.ok acc
  | i, k + 1, acc => do
      let start : ℤ := nuclidesMark - 1 + (i : ℤ) * (rows : ℤ)
      let nc ← parseNuclide emap (pySlice strings start (start + rows)) ng nm xsi
      parseNuclidesLoop emap strings nuclidesMark nm xsi ng rows (i + 1) k
        (alistInsert acc nc.uid nc)

/-- parse_nuclideset: marks check, header id, counts, chi, record-length
inference, minimum record length check, truncation of the declared
nuclide count when the input is short (Python floor division), then the
nuclide loop. -/
def parseNuclideset (emap : List (String × ℕ)) (strings : List String)
    (sm : SetMarks) (nm : NuclideMarks) (xsi : List (String × ℕ)) :
    Except PyErr NuclideSet :=
  if sm.minVal < 1 then Except.error PyErr.valueError
  else do
    let uid ← readHeaderId strings sm
    let nnng ← readCounts strings sm
    let chi ← readChi strings sm
    let startIdx := (sm.nuclides - 1).toNat
    let endIdx ← inferEnd emap strings startIdx
    let rows := endIdx - startIdx
    if (rows : ℤ) < 1 + 2 * nnng.2 then Except.error PyErr.valueError
    else
      let nn2 : ℤ :=
        if (strings.length : ℤ) < sm.maxVal - 1 + (rows : ℤ) * nnng.1
        then ((strings.length : ℤ) - sm.maxVal + 1).fdiv rows
        else nnng.1
      do
        let nucs ← parseNuclidesLoop emap strings sm.nuclides nm xsi
          nnng.2.toNat rows 0 nn2.toNat []
        pure ⟨uid, nn2, nnng.2.toNat, chi, nucs⟩

/-- The section-boundary test of find_nuclidesets:
re.match("[ \t]*\$.*", line). -/
def matchStartMark (s : String) : Bool :=
  match s.toList.dropWhile isSpaceTab with
  | '$' :: _ => true
  | _ => false

/-- The find_start scan: from pos (which is -1 on the first call, a
Python index reaching the last line), return the first position whose
line starts a section, or len(strings). -/
def findStartAux (strings : List String) : ℤ → ℕ → Except PyErr ℤ
  | _, 0 => Except.ok (strings.length : ℤ)
  | pos, fuel + 1 =>
      if pos < (strings.length : ℤ) then do
        let s ← pyIndexInt strings pos
        if matchStartMark s then pure pos
        else findStartAux strings (pos + 1) fuel
      else pure (strings.length : ℤ)

def findStart (strings : List String) (pos : ℤ) : Except PyErr ℤ :=
  findStartAux strings pos (((strings.length : ℤ) - pos).toNat + 1)

/-- The main loop of find_nuclidesets: carve [start, end) slices at
section boundaries and parse each one; sets are keyed by uid, a later
duplicate overwriting an earlier one.  A parse failure propagates: no
try/except surrounds the call. -/
def findLoop (emap : List (String × ℕ)) (sm : SetMarks) (nm : NuclideMarks)
    (xsi : List (String × ℕ)) (strings : List String) :
    ℤ → List (ℤ × NuclideSet) → ℕ → Except PyErr (List (ℤ × NuclideSet))
  | _, acc, 0 => Except.ok acc
  | endPos, acc, fuel + 1 =>
      if endPos < (strings.length : ℤ) then do
        let start ← findStart strings endPos
        let endPos2 ← findStart strings (start + 1)
        if start < endPos2 then do
          let nset ← parseNuclideset emap (pySlice strings start endPos2) sm nm xsi
          findLoop emap sm nm xsi strings endPos2
            (alistInsert acc nset.uid nset) fuel
        else Except.ok acc
      else Except.ok acc

/-- find_nuclidesets. -/
def findNuclidesets (emap : List (String × ℕ)) (strings : List String)
    (sm : SetMarks) (nm : NuclideMarks) (xsi : List (String × ℕ)) :
    Except PyErr (List (ℤ × NuclideSet)) :=
  findLoop emap sm nm xsi strings (-1) [] (strings.length + 2)

/-! ## Chi length is never compared to ngroups (C6) -/

theorem parseFloats_isOk (ws : List String) :
    isOk (parseFloats ws) = true ↔ ∀ w ∈ ws, (pyParseFloat? w).isSome := by
  induction ws with
  | nil => simp [parseFloats, isOk]
  | cons w rest ih =>
      cases hw : pyParseFloat? w with
      | none => simp [parseFloats, hw, isOk]
      | some q =>
          cases hr : parseFloats rest with
          | error e =>
              rw [hr] at ih
              simp only [isOk, Bool.false_eq_true, false_iff] at ih
              push_neg at ih
              obtain ⟨x, hx, hxn⟩ := ih
              simp [parseFloats, hw, hr, isOk, Bind.bind, Except.bind]
              exact ⟨x, hx, Option.not_isSome_iff_eq_none.mp (by simpa using hxn)⟩
          | ok l =>
              rw [hr] at ih
              simp only [isOk, true_iff] at ih
              simp [parseFloats, hw, hr, isOk, Bind.bind, Except.bind, Pure.pure,
                Except.pure]
              intro w2 hw2
              exact ih w2 hw2

theorem parseFloats_length (ws : List String) (l : List ℚ)
    (h : parseFloats ws = Except.ok l) : l.length = ws.length := by
  induction ws generalizing l with
  | nil =>
      simp [parseFloats] at h
      simp [← h]
  | cons w rest ih =>
      cases hw : pyParseFloat? w with
      | none => simp [parseFloats, hw] at h
      | some q =>
          cases hr : parseFloats rest with
          | error e =>
              rw [parseFloats, hw, hr] at h
              simp [Bind.bind, Except.bind] at h
          | ok l2 =>
              rw [parseFloats, hw, hr] at h
              simp only [Bind.bind, Except.bind, Pure.pure, Except.pure] at h
              cases h
              simp [ih l2 hr]

theorem parseChi_isOk (s : String) :
    isOk (parseChi s) = true
      ↔ (splitWS s ≠ [] ∧ ∀ w ∈ splitWS s, (pyParseFloat? w).isSome) := by
  have hiff := parseFloats_isOk (splitWS s)
  cases hpf : parseFloats (splitWS s) with
  | error e =>
      rw [hpf] at hiff
      simp only [isOk, Bool.false_eq_true, false_iff] at hiff
      simp only [parseChi, hpf, Bind.bind, Except.bind, isOk]
      constructor
      · intro hc; cases hc
      · rintro ⟨h1, h2⟩; exact absurd h2 hiff
  | ok l =>
      rw [hpf] at hiff
      simp only [isOk, true_iff] at hiff
      have hlen := parseFloats_length _ _ hpf
      simp only [parseChi, hpf, Bind.bind, Except.bind]
      by_cases h0 : l.length = 0
      · rw [if_pos h0]
        simp only [isOk, Bool.false_eq_true, false_iff]
        rintro ⟨h1, h2⟩
        exact h1 (List.eq_nil_of_length_eq_zero (by omega))
      · rw [if_neg h0]
        constructor
        · intro _
          refine ⟨?_, hiff⟩
          intro hc
          rw [hc] at hlen
          simp only [List.length_nil] at hlen
          omega
        · intro _
          rfl

/-- A set-section whose chi line has 2 floats but whose declared ngroups
is 1; marks place counts at line 2, chi at line 3 and the nuclides at
line 4 (matching the repository's own test geometry). -/
def linesC6 : List String :=
  ["$1SET", "2 1 1 5 0 0", "0.5 0.25", "SODIUM-23", "0.1 0.2 0.3 0.4",
   "0.5", "0", "0"]

def smC6 : SetMarks := ⟨1, 2, 3, 4⟩

def nmC6 : NuclideMarks := ⟨1, 2⟩

/-- C6 counterexample: the section linesC6 declares ngroups = 1 but its
chi line holds 2 floats, and parse_nuclideset succeeds anyway (uid 1,
1 nuclide, ngroups 1, chi of length 2): the chi length is never compared
to ngroups. -/
theorem parse_nuclideset_accepts_chi_mismatch :
    (parseNuclideset defaultElementMap linesC6 smC6 nmC6 []).map
        (fun nset => (nset.uid, nset.nnuclides, nset.ngroups, nset.chi.length))
      = Except.ok (1, 1, 1, 2) := by
  rfl

/-- C6 (amended): parse_chi accepts any chi line holding at least one
float (every word must parse as a float) and never consults ngroups; a
section is rejected through chi only when the chi line has no words or a
word that is not a float.  The second conjunct instantiates this on a
whole section with chi length 2 and ngroups 1. -/
theorem parse_chi_no_length_check :
    (∀ s, isOk (parseChi s) = true
        ↔ (splitWS s ≠ [] ∧ ∀ w ∈ splitWS s, (pyParseFloat? w).isSome))
    ∧ (parseNuclideset defaultElementMap linesC6 smC6 nmC6 []).map
        (fun nset => (nset.ngroups, nset.chi.length)) = Except.ok (1, 2) :=
  ⟨parseChi_isOk, by rfl⟩

/-! ## Truncation of a short section (C7) -/

/-- A 1-group section declaring 3 nuclides with only 2 complete records
present; the second record's xs row is not numeric. -/
def linesC7 : List String :=
  ["$1SET", "2 3 1 5 0 0", "0.5", "SODIUM-23", "0.1 0.2 0.3 0.4", "0.5",
   "SILICON-28", "xx yy", "0.5"]

/-- The same section with both complete records well-formed. -/
def linesC7good : List String :=
  ["$1SET", "2 3 1 5 0 0", "0.5", "SODIUM-23", "0.1 0.2 0.3 0.4", "0.5",
   "SILICON-28", "0.6 0.7 0.8 0.9", "0.5"]

/-- C7 counterexample: on linesC7 the header, counts and chi lines parse,
the inferred record length is 3 = 1 + 2*ngroups, and the declared
3 nuclides times 3 rows exceed the available lines; the truncation fires
(2 records fit), yet parse_nuclideset still fails, because the second
complete record does not parse. -/
theorem parse_nuclideset_truncation_not_total :
    readHeaderId linesC7 smC6 = Except.ok 1
    ∧ readCounts linesC7 smC6 = Except.ok (3, 1)
    ∧ (readChi linesC7 smC6).map List.length = Except.ok 1
    ∧ inferEnd defaultElementMap linesC7 3 = Except.ok 6
    ∧ (linesC7.length : ℤ) < smC6.maxVal - 1 + 3 * 3
    ∧ ((linesC7.length : ℤ) - smC6.maxVal + 1).fdiv 3 = 2
    ∧ parseNuclideset defaultElementMap linesC7 smC6 nmC6 []
        = Except.error PyErr.valueError := by
  refine ⟨by rfl, by rfl, by rfl, by rfl, by decide, by decide, by rfl⟩

theorem parseNuclidesLoop_ok (emap : List (String × ℕ)) (strings : List String)
    (nuclidesMark : ℤ) (nm : NuclideMarks) (xsi : List (String × ℕ))
    (ng rows : ℕ) :
    ∀ (k i : ℕ) (acc : List (ℕ × Nuclide)),
      (∀ j, j < k → ∃ nc, parseNuclide emap
          (pySlice strings (nuclidesMark - 1 + ((i + j : ℕ) : ℤ) * (rows : ℤ))
            (nuclidesMark - 1 + ((i + j : ℕ) : ℤ) * (rows : ℤ) + rows)) ng nm xsi
          = Except.ok nc) →
      ∃ out, parseNuclidesLoop emap strings nuclidesMark nm xsi ng rows i k acc
        = Except.ok out := by
  intro k
  induction k with
  | zero => intro i acc _; exact ⟨acc, rfl⟩
  | succ k ih =>
      intro i acc hrec
      obtain ⟨nc, hnc⟩ := hrec 0 (Nat.succ_pos k)
      have hnc2 : parseNuclide emap
          (pySlice strings (nuclidesMark - 1 + (i : ℤ) * (rows : ℤ))
            (nuclidesMark - 1 + (i : ℤ) * (rows : ℤ) + rows)) ng nm xsi
          = Except.ok nc := by
        have harith : ((i + 0 : ℕ) : ℤ) = (i : ℤ) := by push_cast; ring
        rw [harith] at hnc
        exact hnc
      obtain ⟨out, hout⟩ := ih (i + 1) (alistInsert acc nc.uid nc) (fun j hj => by
        have h2 := hrec (j + 1) (by omega)
        have harith : ((i + (j + 1) : ℕ) : ℤ) = ((i + 1 + j : ℕ) : ℤ) := by
          push_cast; ring
        rw [harith] at h2
        exact h2)
      refine ⟨out, ?_⟩
      simp only [parseNuclidesLoop, hnc2, Bind.bind, Except.bind]
      exact hout

/-- C7 (amended): for a section whose header, counts and chi lines parse,
whose inferred record length is at least 1 + 2*ngroups, and whose
declared nnuclides times the record length exceeds the available lines,
parse_nuclideset does not fail because of the shortfall: provided each of
the complete records that fit parses as a nuclide, it warns, resets
nnuclides to floor((available lines)/record length) by Python floor
division and returns a NuclideSet with that nnuclides. -/
theorem parse_nuclideset_truncates (emap : List (String × ℕ))
    (strings : List String) (sm : SetMarks) (nm : NuclideMarks)
    (xsi : List (String × ℕ)) (uid : ℕ) (nn ng : ℤ) (chi : List ℚ)
    (endIdx rows : ℕ) (actual : ℤ)
    (hmin : 1 ≤ sm.minVal)
    (hh : readHeaderId strings sm = Except.ok uid)
    (hc : readCounts strings sm = Except.ok (nn, ng))
    (hchi : readChi strings sm = Except.ok chi)
    (hinf : inferEnd emap strings (sm.nuclides - 1).toNat = Except.ok endIdx)
    (hrows : rows = endIdx - (sm.nuclides - 1).toNat)
    (hminrows : 1 + 2 * ng ≤ (rows : ℤ))
    (hshort : (strings.length : ℤ) < sm.maxVal - 1 + (rows : ℤ) * nn)
    (hactual : actual = ((strings.length : ℤ) - sm.maxVal + 1).fdiv rows)
    (hrec : ∀ j, j < actual.toNat → ∃ nc, parseNuclide emap
        (pySlice strings (sm.nuclides - 1 + ((j : ℕ) : ℤ) * (rows : ℤ))
          (sm.nuclides - 1 + ((j : ℕ) : ℤ) * (rows : ℤ) + rows)) ng.toNat nm xsi
        = Except.ok nc) :
    ∃ nset, parseNuclideset emap strings sm nm xsi = Except.ok nset
      ∧ nset.nnuclides = actual ∧ nset.uid = uid ∧ nset.ngroups = ng.toNat
      ∧ nset.chi = chi := by
  obtain ⟨out, hout⟩ :=
    parseNuclidesLoop_ok emap strings sm.nuclides nm xsi ng.toNat rows
      actual.toNat 0 [] (fun j hj => by
        have h2 := hrec j hj
        have harith : ((0 + j : ℕ) : ℤ) = ((j : ℕ) : ℤ) := by push_cast; ring
        rw [harith]
        exact h2)
  refine ⟨⟨uid, actual, ng.toNat, chi, out⟩, ?_, rfl, rfl, rfl, rfl⟩
  rw [parseNuclideset, if_neg (by omega)]
  simp only [Bind.bind, Except.bind, hh, hc, hchi, hinf, ← hrows]
  rw [if_neg (by omega)]
  rw [if_pos hshort]
  rw [← hactual]
  simp only [hout, Pure.pure, Except.pure]

/-- Witness for parse_nuclideset_truncates: linesC7good declares 3
nuclides but holds only 2 complete records; the parse succeeds with
nnuclides reset to 2 and both records present. -/
theorem parse_nuclideset_truncates_witness :
    ∃ nset, parseNuclideset defaultElementMap linesC7good smC6 nmC6 []
        = Except.ok nset
      ∧ nset.nnuclides = 2 ∧ nset.uid = 1 ∧ nset.ngroups = 1
      ∧ nset.chi.length = 1 := by
  obtain ⟨chi, hchi⟩ : ∃ chi, readChi linesC7good smC6 = Except.ok chi := ⟨_, rfl⟩
  have hchilen : chi.length = 1 := by
    have h := congrArg (Except.map List.length) hchi
    have h2 : (readChi linesC7good smC6).map List.length = Except.ok 1 := by rfl
    rw [h2] at h
    exact (Except.ok.inj h).symm
  obtain ⟨nset, h1, h2, h3, h4, h5⟩ :=
    parse_nuclideset_truncates defaultElementMap linesC7good smC6 nmC6 []
      1 3 1 chi 6 3 2
      (by decide) (by rfl) (by rfl) hchi (by rfl) (by rfl)
      (by decide) (by decide) (by decide)
      (by
        intro j hj
        have hj2 : j < 2 := by simpa using hj
        interval_cases j
        · exact ⟨_, rfl⟩
        · exact ⟨_, rfl⟩)
  exact ⟨nset, h1, h2, h3, h4, by rw [h5, hchilen]⟩

/-! ## A failing section aborts the whole scan (C4) -/

/-- A malformed section: its counts line has fewer than 6 numbers. -/
def linesC4bad : List String := ["$2SET", "1 2"]

/-- Two sections: the malformed one, then the well-formed linesC6. -/
def linesC4 : List String := linesC4bad ++ linesC6

/-- C4 counterexample: the second section of linesC4 is well-formed (it
parses on its own, yielding set 1), the boundary scan carves the sections
correctly, yet find_nuclidesets on the whole input propagates the first
section's ValueError and returns no NuclideSets at all. -/
theorem find_nuclidesets_aborts_on_bad_section :
    (parseNuclideset defaultElementMap linesC6 smC6 nmC6 []).map (fun n => n.uid)
        = Except.ok 1
    ∧ findStart linesC4 (-1) = Except.ok 0
    ∧ findStart linesC4 1 = Except.ok 2
    ∧ pySlice linesC4 2 (linesC4.length : ℤ) = linesC6
    ∧ parseNuclideset defaultElementMap (pySlice linesC4 0 2) smC6 nmC6 []
        = Except.error PyErr.valueError
    ∧ findNuclidesets defaultElementMap linesC4 smC6 nmC6 []
        = Except.error PyErr.valueError := by
  refine ⟨by rfl, by rfl, by rfl, by rfl, by rfl, by rfl⟩

/-- C4 (amended): find_nuclidesets has no per-section error recovery.  An
iteration of its scan loop whose carved section fails to parse returns
that error unchanged, an iteration whose section parses keeps scanning
with the set recorded, and find_nuclidesets is just the loop started at
position -1 with an empty dictionary: one failing section anywhere makes
the whole call fail, and the NuclideSets of the other well-formed
sections are not returned. -/
theorem find_nuclidesets_error_propagates (emap : List (String × ℕ))
    (strings : List String) (sm : SetMarks) (nm : NuclideMarks)
    (xsi : List (String × ℕ)) :
    (∀ (endPos : ℤ) (acc : List (ℤ × NuclideSet)) (fuel : ℕ) (s e : ℤ)
        (err : PyErr),
        endPos < (strings.length : ℤ) →
        findStart strings endPos = Except.ok s →
        findStart strings (s + 1) = Except.ok e →
        s < e →
        parseNuclideset emap (pySlice strings s e) sm nm xsi = Except.error err →
        findLoop emap sm nm xsi strings endPos acc (fuel + 1) = Except.error err)
    ∧ (∀ (endPos : ℤ) (acc : List (ℤ × NuclideSet)) (fuel : ℕ) (s e : ℤ)
        (nset : NuclideSet),
        endPos < (strings.length : ℤ) →
        findStart strings endPos = Except.ok s →
        findStart strings (s + 1) = Except.ok e →
        s < e →
        parseNuclideset emap (pySlice strings s e) sm nm xsi = Except.ok nset →
        findLoop emap sm nm xsi strings endPos acc (fuel + 1)
          = findLoop emap sm nm xsi strings e (alistInsert acc nset.uid nset) fuel)
    ∧ findNuclidesets emap strings sm nm xsi
        = findLoop emap sm nm xsi strings (-1) [] (strings.length + 2) := by
  refine ⟨?_, ?_, rfl⟩
  · intro endPos acc fuel s e err hin hs he hlt hp
    rw [findLoop, if_pos hin]
    simp only [Bind.bind, Except.bind, hs, he]
    rw [if_pos hlt]
    simp only [hp]
  · intro endPos acc fuel s e nset hin hs he hlt hp
    rw [findLoop, if_pos hin]
    simp only [Bind.bind, Except.bind, hs, he]
    rw [if_pos hlt]
    simp only [hp]

/-- Witness for find_nuclidesets_error_propagates at the concrete input
linesC4: its first section fails, so the whole call fails. -/
theorem find_nuclidesets_error_propagates_witness :
    findNuclidesets defaultElementMap linesC4 smC6 nmC6 []
      = Except.error PyErr.valueError := by
  have h := find_nuclidesets_error_propagates defaultElementMap linesC4 smC6 nmC6 []
  rw [h.2.2]
  exact h.1 (-1) [] (linesC4.length + 1) 0 2 PyErr.valueError (by decide)
    (by rfl) (by rfl) (by decide) (by rfl)

end AntmocData
